import Mathlib

/-!
# shortlinks: base-36 identifier codec, SQLite-backed index, HTTP handlers

A shallow embedding of `server.go`, `index.go` and `index_sqlite.go`.

Conventions
* A Go `string` is a byte sequence.  It is modelled by a Lean `String` whose
  characters stand for the bytes of the same code (0–255); every string literal
  used below is ASCII.
* `int64` values are `Int`, `uint64` values are `Nat`; wrap-around is written
  out with `% 2^64` where the Go code can overflow.
* A Go function returning `(value, error)` returns a pair whose second
  component is `Option Error` (`none` is the `nil` error), because the callers
  in `server.go` use the value even when the error is not `nil`.
-/

namespace Shortlinks

/-! ## Errors -/

/-- The error values that flow through the package. -/
inductive Error where
  /-- `strconv.ErrSyntax` inside a `*strconv.NumError`. -/
  | numSyntax : Error
  /-- `strconv.ErrRange` inside a `*strconv.NumError`. -/
  | numRange : Error
  /-- `ErrNotFound` of `index.go`. -/
  | notFound : Error
  /-- `sql.ErrNoRows`. -/
  | noRows : Error
  /-- Any other failure reported by the storage engine or the driver. -/
  | storage (msg : String) : Error
  /-- An error returned by `url.Parse`. -/
  | url (msg : String) : Error
  /-- The result of `xerrors.Errorf` with a trailing `%w` verb. -/
  | wrapped (msg : String) (cause : Error) : Error
  deriving DecidableEq, Repr

/-- `xerrors.Is(err, ErrNotFound)`: walks the `Unwrap` chain. -/
def Error.isNotFound : Error → Bool
  | .notFound => true
  | .wrapped _ cause => cause.isNotFound
  | _ => false

/-! ## strconv (base 36, 64 bits) -/

def maxUint64 : Nat := 2 ^ 64 - 1

def maxInt64 : Int := 2 ^ 63 - 1

def minInt64 : Int := -(2 ^ 63)

/-- `strconv.digits`. -/
def digits : List Char := "0123456789abcdefghijklmnopqrstuvwxyz".toList

/-- `digits[i]`. -/
def digitAt (i : Nat) : Char := digits.getD i '0'

/-- The general-case loop of `strconv.formatBits` for base 36:
`for u >= b { i--; q := u / b; a[i] = digits[u-q*b]; u = q }; i--; a[i] = digits[u]`.
The first argument counts the free bytes of the buffer `a` (`len(a) = 65`). -/
def formatBitsLoop : Nat → Nat → List Char → List Char
  | 0, _, acc => acc
  | room + 1, u, acc =>
    if u ≥ 36 then
      formatBitsLoop room (u / 36) (digitAt (u - (u / 36) * 36) :: acc)
    else
      digitAt u :: acc

/-- `strconv.formatBits(nil, u, 36, neg, false)`. -/
def formatBits (u : Nat) (neg : Bool) : List Char :=
  let u := if neg then (2 ^ 64 - u) % 2 ^ 64 else u
  let a := formatBitsLoop 65 u []
  if neg then '-' :: a else a

/-- `strconv.FormatInt(i, 36)`; the fast path for small values applies to base 10 only. -/
def FormatInt (i : Int) : String :=
  ⟨formatBits (i % 2 ^ 64).toNat (decide (i < 0))⟩

/-- `strconv.lower`: `c | ('x' - 'X')`. -/
def lower (c : Nat) : Nat := c ||| 0x20

/-- The digit value of a byte in the loop of `strconv.ParseUint`, `none` for a
byte that is neither a decimal digit nor a letter. -/
def digitVal (c : Char) : Option Nat :=
  if '0'.toNat ≤ c.toNat ∧ c.toNat ≤ '9'.toNat then some (c.toNat - '0'.toNat)
  else if 'a'.toNat ≤ lower c.toNat ∧ lower c.toNat ≤ 'z'.toNat then
    some (lower c.toNat - 'a'.toNat + 10)
  else none

/-- The loop of `strconv.ParseUint(s, 36, 64)` over the bytes of `s`, started
with accumulator `n`.  `cutoff = maxUint64/36 + 1`, `maxVal = 2^64 - 1`. -/
def parseUintLoop : List Char → Nat → Nat × Option Error
  | [], n => (n, none)
  | c :: cs, n =>
    match digitVal c with
    | none => (0, some .numSyntax)
    | some d =>
      if d ≥ 36 then (0, some .numSyntax)
      else if n ≥ maxUint64 / 36 + 1 then (maxUint64, some .numRange)
      else
        let n := (n * 36) % 2 ^ 64
        let n1 := (n + d) % 2 ^ 64
        if n1 < n ∨ n1 > maxUint64 then (maxUint64, some .numRange)
        else parseUintLoop cs n1

/-- `strconv.ParseUint(s, 36, 64)`. -/
def ParseUint (s : List Char) : Nat × Option Error :=
  if s = [] then (0, some .numSyntax) else parseUintLoop s 0

/-- `strconv.ParseInt(s, 36, 64)`. -/
def ParseInt (s : String) : Int × Option Error :=
  match s.data with
  | [] => (0, some .numSyntax)
  | c :: cs =>
    let neg := c = '-'
    let body := if c = '+' ∨ c = '-' then cs else c :: cs
    match ParseUint body with
    | (_, some .numSyntax) => (0, some .numSyntax)
    | (un, _) =>
      let cutoff : Nat := 2 ^ 63
      if ¬ neg ∧ un ≥ cutoff then ((cutoff : Int) - 1, some .numRange)
      else if neg ∧ un > cutoff then (-(cutoff : Int), some .numRange)
      else if neg then (-(un : Int), none) else ((un : Int), none)

/-! ## server.go: the identifier codec -/

/-- `formatID`: converts an int64 to a string using base 36. -/
def formatID (rowID : Int) : String := FormatInt rowID

/-- `parseID`: converts a shortlink ID string in base 36 to an int64. -/
def parseID (shortID : String) : Int × Option Error := ParseInt shortID


/-! ## The storage engine behind `index_sqlite.go` -/

/-- A row of the table `links`. -/
structure Row where
  id : Int
  longURL : String
  deriving DecidableEq, Repr

/-- Modelled from the spec: the table
`links(id INTEGER PRIMARY KEY AUTOINCREMENT, longURL TEXT UNIQUE NOT NULL)`, whose
`create table` statement is not part of the sources.  `rows` are the rows of `links` in
insertion order; `seq` is the counter the engine keeps for the `AUTOINCREMENT` key (the
largest rowid generated so far). -/
structure DB where
  rows : List Row
  seq : Int
  deriving DecidableEq, Repr

/-- The empty `links` table. -/
def DB.empty : DB := ⟨[], 0⟩

/-- The largest rowid in the table, `0` when there is none above `0`. -/
def maxRowid (rows : List Row) : Int := rows.foldl (fun m r => max m r.id) 0

/-- The rowid the engine generates for an insert into the `AUTOINCREMENT` table: one more
than the largest rowid ever generated; `none` (the engine reports `SQLITE_FULL`) when
that is the largest int64. -/
def newRowid (db : DB) : Option Int :=
  let m := max (maxRowid db.rows) db.seq
  if m ≥ maxInt64 then none else some (m + 1)

/-- `db.Exec("insert or ignore into links (longURL) values (?)", longURL)`.
`fault` is a failure the engine or the driver reports for this call for reasons outside
the table's contents (`none`: no such failure); a failed statement changes nothing.
The engine generates the rowid before it checks the `UNIQUE` constraint on `longURL`:
an insert that is ignored adds no row and reports no error, but it has consumed a rowid
(the counter is advanced), and at the largest int64 the statement fails whether or not the
URL is already there. -/
def execInsertOrIgnore (db : DB) (longURL : String) (fault : Option Error) :
    DB × Option Error :=
  match fault with
  | some e => (db, some e)
  | none =>
    match newRowid db with
    | none => (db, some (.storage "database or disk is full"))
    | some v =>
      if db.rows.any (fun r => r.longURL = longURL) then ({ db with seq := v }, none)
      else ({ rows := db.rows ++ [⟨v, longURL⟩], seq := v }, none)

/-- `db.QueryRow("select id from links where longURL = ?", longURL).Scan(&id)`:
the first matching row, `sql.ErrNoRows` when there is none; `id` stays `0` on failure. -/
def queryID (db : DB) (longURL : String) (fault : Option Error) : Int × Option Error :=
  match fault with
  | some e => (0, some e)
  | none =>
    match db.rows.find? (fun r => r.longURL = longURL) with
    | some r => (r.id, none)
    | none => (0, some .noRows)

/-- `db.QueryRow("select longURL from links where id = ?", id).Scan(&longURL)`. -/
def queryLongURL (db : DB) (id : Int) (fault : Option Error) : String × Option Error :=
  match fault with
  | some e => ("", some e)
  | none =>
    match db.rows.find? (fun r => r.id = id) with
    | some r => (r.longURL, none)
    | none => ("", some .noRows)

/-! ## index_sqlite.go -/

/-- `SQLiteIndex`: an Index backed by a SQLite database.  The mutex `l` is taken on entry
of both methods and released on return; between two calls made one after the other it is
free, so the methods below, which run a whole call at once, leave it out.  Calls that run
concurrently are modelled further down, with the mutex. -/
structure SQLiteIndex where
  db : DB
  deriving DecidableEq, Repr

/-- `(*SQLiteIndex).LookupID`: returns the URL mapped to the provided ID, together
with the index after the call. -/
def SQLiteIndex.LookupID (i : SQLiteIndex) (id : Int) (fault : Option Error) :
    (String × Option Error) × SQLiteIndex :=
  match queryLongURL i.db id fault with
  | (longURL, none) => ((longURL, none), i)
  | (_, some err) =>
    if err = .noRows then (("", some .notFound), i)
    else (("", some (.wrapped "error resolving ID %s to long URL in database" err)), i)

/-- `(*SQLiteIndex).AddURL`: makes sure that a URL exists in the database by inserting it
if necessary, then returns the ID belonging to that URL, together with the index after
the call.  `execFault` and `queryFault` are the failures reported for its two storage
calls. -/
def SQLiteIndex.AddURL (i : SQLiteIndex) (longURL : String)
    (execFault queryFault : Option Error) : (Int × Option Error) × SQLiteIndex :=
  match execInsertOrIgnore i.db longURL execFault with
  | (db, some err) => ((-1, some (.wrapped "error adding shortlink to database" err)), ⟨db⟩)
  | (db, none) =>
    match queryID db longURL queryFault with
    | (_, some err) =>
      ((-1, some (.wrapped "error getting ID of added URL from database" err)), ⟨db⟩)
    | (id, none) => ((id, none), ⟨db⟩)

/-! ## net/url

The parts of Go's `net/url` that `shorten` and `http.Redirect` go through:
`url.Parse`, `(*URL).String` and their helpers.  Strings are handled as lists of bytes. -/

/-- `url.Userinfo`. -/
structure Userinfo where
  username : String
  password : String
  passwordSet : Bool
  deriving DecidableEq, Repr

/-- `url.URL`. -/
structure URL where
  Scheme : String := ""
  Opaque : String := ""
  User : Option Userinfo := none
  Host : String := ""
  Path : String := ""
  RawPath : String := ""
  OmitHost : Bool := false
  ForceQuery : Bool := false
  RawQuery : String := ""
  Fragment : String := ""
  RawFragment : String := ""
  deriving DecidableEq, Repr

deriving instance DecidableEq for Except

/-- The escaping modes of `net/url` that occur on these paths. -/
inductive Encoding where
  | encodePath | encodeHost | encodeZone | encodeUserPassword | encodeFragment
  deriving DecidableEq, Repr

namespace url

/-- `strings.Cut(s, sep)` for a one-byte separator. -/
def cut : List Char → Char → List Char × List Char × Bool
  | [], _ => ([], [], false)
  | c :: cs, sep =>
    if c = sep then ([], cs, true)
    else ((c :: (cut cs sep).1), (cut cs sep).2.1, (cut cs sep).2.2)

/-- `strings.Index(s, sep)`. -/
def index : List Char → List Char → Option Nat
  | [], sep => if sep = [] then some 0 else none
  | c :: cs, sep =>
    if sep.isPrefixOf (c :: cs) then some 0 else (index cs sep).map (· + 1)

/-- `strings.LastIndex(s, sep)` for a one-byte separator. -/
def lastIndexByte : List Char → Char → Option Nat
  | [], _ => none
  | c :: cs, sep =>
    match lastIndexByte cs sep with
    | some k => some (k + 1)
    | none => if c = sep then some 0 else none

/-- `stringContainsCTLByte`: whether `s` contains any ASCII control character. -/
def stringContainsCTLByte (s : List Char) : Bool :=
  s.any (fun b => b.toNat < ' '.toNat ∨ b.toNat = 0x7f)

def isAlpha (c : Char) : Bool :=
  ('a'.toNat ≤ c.toNat ∧ c.toNat ≤ 'z'.toNat) ∨ ('A'.toNat ≤ c.toNat ∧ c.toNat ≤ 'Z'.toNat)

def isDigit (c : Char) : Bool := '0'.toNat ≤ c.toNat ∧ c.toNat ≤ '9'.toNat

/-- `ishex`. -/
def ishex (c : Char) : Bool :=
  isDigit c ∨ ('a'.toNat ≤ c.toNat ∧ c.toNat ≤ 'f'.toNat)
    ∨ ('A'.toNat ≤ c.toNat ∧ c.toNat ≤ 'F'.toNat)

/-- `unhex`. -/
def unhex (c : Char) : Nat :=
  if isDigit c then c.toNat - '0'.toNat
  else if 'a'.toNat ≤ c.toNat ∧ c.toNat ≤ 'f'.toNat then c.toNat - 'a'.toNat + 10
  else if 'A'.toNat ≤ c.toNat ∧ c.toNat ≤ 'F'.toNat then c.toNat - 'A'.toNat + 10
  else 0

/-- `shouldEscape(c, mode)`: whether the byte must be escaped when it appears in the
given part of a URL. -/
def shouldEscape (c : Char) (mode : Encoding) : Bool :=
  if isAlpha c ∨ isDigit c then false
  else if (mode = .encodeHost ∨ mode = .encodeZone) ∧
      c ∈ ['!', '$', '&', '\'', '(', ')', '*', '+', ',', ';', '=', ':', '[', ']', '<', '>', '"']
    then false
  else if c ∈ ['-', '_', '.', '~'] then false
  else if c ∈ ['$', '&', '+', ',', '/', ':', ';', '=', '?', '@'] ∧ mode = .encodePath then
    c = '?'
  else if c ∈ ['$', '&', '+', ',', '/', ':', ';', '=', '?', '@'] ∧ mode = .encodeUserPassword then
    c = '@' ∨ c = '/' ∨ c = '?' ∨ c = ':'
  else if c ∈ ['$', '&', '+', ',', '/', ':', ';', '=', '?', '@'] ∧ mode = .encodeFragment then
    false
  else if mode = .encodeFragment ∧ c ∈ ['!', '(', ')', '*'] then false
  else true

/-- The first loop of `unescape`: counts nothing, but reports the malformed escape or the
invalid host byte at which `unescape` gives up. -/
def unescapeCheck : List Char → Encoding → Option Error
  | [], _ => none
  | c :: cs, mode =>
    if c = '%' then
      match cs with
      | h1 :: h2 :: rest =>
        if ¬ ishex h1 ∨ ¬ ishex h2 then some (.url "invalid URL escape")
        else if mode = .encodeHost ∧ unhex h1 < 8 ∧ ¬ (h1 = '2' ∧ h2 = '5') then
          some (.url "invalid URL escape")
        else if mode = .encodeZone ∧ ¬ (h1 = '2' ∧ h2 = '5')
            ∧ unhex h1 * 16 + unhex h2 ≠ ' '.toNat
            ∧ shouldEscape (Char.ofNat (unhex h1 * 16 + unhex h2)) .encodeHost then
          some (.url "invalid URL escape")
        else unescapeCheck rest mode
      | _ => some (.url "invalid URL escape")
    else if (mode = .encodeHost ∨ mode = .encodeZone) ∧ c.toNat < 0x80
        ∧ shouldEscape c .encodeHost then
      some (.url "invalid character in host name")
    else unescapeCheck cs mode

/-- The second loop of `unescape`: replaces every `%XX` by the byte it stands for. -/
def unescapeBytes : List Char → List Char
  | [] => []
  | c :: cs =>
    if c = '%' then
      match cs with
      | h1 :: h2 :: rest => Char.ofNat (unhex h1 * 16 + unhex h2) :: unescapeBytes rest
      | _ => []
    else c :: unescapeBytes cs

/-- `unescape(s, mode)`. -/
def unescape (s : List Char) (mode : Encoding) : Except Error (List Char) :=
  match unescapeCheck s mode with
  | some e => .error e
  | none => .ok (unescapeBytes s)

/-- Whether `unescape(raw, mode)` succeeds with the result `target`. -/
def unescapesTo (raw : List Char) (mode : Encoding) (target : List Char) : Bool :=
  match unescape raw mode with
  | .ok p => p = target
  | .error _ => false

/-- `upperhex[i]`. -/
def upperhex (i : Nat) : Char := "0123456789ABCDEF".toList.getD i '0'

/-- `escape(s, mode)`. -/
def escape : List Char → Encoding → List Char
  | [], _ => []
  | c :: cs, mode =>
    if shouldEscape c mode then
      '%' :: upperhex (c.toNat % 256 / 16) :: upperhex (c.toNat % 16) :: escape cs mode
    else c :: escape cs mode

/-- `validEncoding(s, mode)`. -/
def validEncoding (s : List Char) (mode : Encoding) : Bool :=
  s.all fun c =>
    if c ∈ ['!', '$', '&', '\'', '(', ')', '*', '+', ',', ';', '=', ':', '@', '[', ']', '%']
    then true else ! shouldEscape c mode

/-- The loop of `getScheme` from position `i` on; `seen` is `rawURL[:i]` reversed. -/
def getSchemeLoop : List Char → List Char → List Char → Except Error (List Char × List Char)
  | [], _, rawURL => .ok ([], rawURL)
  | c :: cs, seen, rawURL =>
    if isAlpha c then getSchemeLoop cs (c :: seen) rawURL
    else if isDigit c ∨ c = '+' ∨ c = '-' ∨ c = '.' then
      if seen = [] then .ok ([], rawURL) else getSchemeLoop cs (c :: seen) rawURL
    else if c = ':' then
      if seen = [] then .error (.url "missing protocol scheme") else .ok (seen.reverse, cs)
    else .ok ([], rawURL)

/-- `getScheme(rawURL)`: the scheme and the rest after the colon. -/
def getScheme (rawURL : List Char) : Except Error (List Char × List Char) :=
  getSchemeLoop rawURL [] rawURL

/-- `validOptionalPort(port)`. -/
def validOptionalPort (port : List Char) : Bool :=
  match port with
  | [] => true
  | c :: cs => c = ':' ∧ cs.all isDigit

/-- `validUserinfo(s)`. -/
def validUserinfo (s : List Char) : Bool :=
  s.all fun r => isAlpha r ∨ isDigit r ∨
    r ∈ ['-', '.', '_', ':', '~', '!', '$', '&', '\'', '(', ')', '*', '+', ',', ';', '=', '%', '@']

/-- `parseHost(host)`. -/
def parseHost (host : List Char) : Except Error (List Char) :=
  if host.head? = some '[' then
    match lastIndexByte host ']' with
    | none => .error (.url "missing ']' in host")
    | some i =>
      if ¬ validOptionalPort (host.drop (i + 1)) then .error (.url "invalid port after host")
      else
        match index (host.take i) ['%', '2', '5'] with
        | some zone =>
          match unescape (host.take zone) .encodeHost with
          | .error e => .error e
          | .ok host1 =>
            match unescape ((host.take i).drop zone) .encodeZone with
            | .error e => .error e
            | .ok host2 =>
              match unescape (host.drop i) .encodeHost with
              | .error e => .error e
              | .ok host3 => .ok (host1 ++ host2 ++ host3)
        | none => unescape host .encodeHost
  else
    match lastIndexByte host ':' with
    | some i =>
      if ¬ validOptionalPort (host.drop i) then .error (.url "invalid port after host")
      else unescape host .encodeHost
    | none => unescape host .encodeHost

/-- `parseAuthority(authority)`. -/
def parseAuthority (authority : List Char) : Except Error (Option Userinfo × List Char) :=
  match lastIndexByte authority '@' with
  | none =>
    match parseHost authority with
    | .error e => .error e
    | .ok host => .ok (none, host)
  | some i =>
    match parseHost (authority.drop (i + 1)) with
    | .error e => .error e
    | .ok host =>
      let userinfo := authority.take i
      if ¬ validUserinfo userinfo then .error (.url "net/url: invalid userinfo")
      else if ¬ userinfo.contains ':' then
        match unescape userinfo .encodeUserPassword with
        | .error e => .error e
        | .ok username => .ok (some ⟨⟨username⟩, "", false⟩, host)
      else
        match unescape (cut userinfo ':').1 .encodeUserPassword with
        | .error e => .error e
        | .ok username =>
          match unescape (cut userinfo ':').2.1 .encodeUserPassword with
          | .error e => .error e
          | .ok password => .ok (some ⟨⟨username⟩, ⟨password⟩, true⟩, host)

/-- `(*URL).setPath(p)`. -/
def setPath (u : URL) (p : List Char) : Except Error URL :=
  match unescape p .encodePath with
  | .error e => .error e
  | .ok path =>
    if p = escape path .encodePath then .ok { u with Path := ⟨path⟩, RawPath := "" }
    else .ok { u with Path := ⟨path⟩, RawPath := ⟨p⟩ }

/-- `(*URL).setFragment(f)`. -/
def setFragment (u : URL) (f : List Char) : Except Error URL :=
  match unescape f .encodeFragment with
  | .error e => .error e
  | .ok frag =>
    if f = escape frag .encodeFragment then .ok { u with Fragment := ⟨frag⟩, RawFragment := "" }
    else .ok { u with Fragment := ⟨frag⟩, RawFragment := ⟨f⟩ }

/-- The part of `parse(rawURL, false)` after the scheme has been split off. -/
def parseRest (scheme rest : List Char) : Except Error URL :=
  let u : URL := { Scheme := ⟨scheme.map Char.toLower⟩ }
  let forceQuery : Bool := rest.getLast? = some '?' ∧ rest.count '?' = 1
  let u : URL :=
    if forceQuery then { u with ForceQuery := true }
    else { u with RawQuery := ⟨(cut rest '?').2.1⟩ }
  let rest := if forceQuery then rest.dropLast else (cut rest '?').1
  if rest.head? ≠ some '/' ∧ scheme ≠ [] then
    .ok { u with Opaque := ⟨rest⟩ }
  else if rest.head? ≠ some '/' ∧ (cut rest '/').1.contains ':' then
    .error (.url "first path segment in URL cannot contain colon")
  else if (scheme ≠ [] ∨ ¬ ['/', '/', '/'].isPrefixOf rest) ∧ ['/', '/'].isPrefixOf rest then
    let authority := (cut (rest.drop 2) '/').1
    let rest := (rest.drop 2).drop authority.length
    match parseAuthority authority with
    | .error e => .error e
    | .ok (user, host) => setPath { u with User := user, Host := ⟨host⟩ } rest
  else if scheme ≠ [] ∧ rest.head? = some '/' then
    setPath { u with OmitHost := true } rest
  else setPath u rest

/-- `parse(rawURL, false)`. -/
def parse (rawURL : List Char) : Except Error URL :=
  if stringContainsCTLByte rawURL then
    .error (.url "net/url: invalid control character in URL")
  else if rawURL = ['*'] then .ok { Path := "*" }
  else
    match getScheme rawURL with
    | .error e => .error e
    | .ok (scheme, rest) => parseRest scheme rest

/-- `url.Parse(rawURL)`. -/
def Parse (rawURL : String) : Except Error URL :=
  match parse (cut rawURL.data '#').1 with
  | .error e => .error e
  | .ok u =>
    if (cut rawURL.data '#').2.1 = [] then .ok u
    else setFragment u (cut rawURL.data '#').2.1

end url

/-- `(*URL).EscapedPath()`. -/
def URL.EscapedPath (u : URL) : List Char :=
  if u.RawPath ≠ "" ∧ url.validEncoding u.RawPath.data .encodePath
      ∧ url.unescapesTo u.RawPath.data .encodePath u.Path.data then
    u.RawPath.data
  else if u.Path = "*" then ['*']
  else url.escape u.Path.data .encodePath

/-- `(*URL).EscapedFragment()`. -/
def URL.EscapedFragment (u : URL) : List Char :=
  if u.RawFragment ≠ "" ∧ url.validEncoding u.RawFragment.data .encodeFragment
      ∧ url.unescapesTo u.RawFragment.data .encodeFragment u.Fragment.data then
    u.RawFragment.data
  else url.escape u.Fragment.data .encodeFragment

/-- `(*Userinfo).String()`. -/
def Userinfo.String (ui : Userinfo) : List Char :=
  url.escape ui.username.data .encodeUserPassword ++
    (if ui.passwordSet then ':' :: url.escape ui.password.data .encodeUserPassword else [])

/-- The authority part written by `(*URL).String()`. -/
def URL.authorityString (u : URL) : List Char :=
  if u.Scheme ≠ "" ∨ u.Host ≠ "" ∨ u.User ≠ none then
    if u.OmitHost ∧ u.Host = "" ∧ u.User = none then []
    else
      (if u.Host ≠ "" ∨ u.Path ≠ "" ∨ u.User ≠ none then ['/', '/'] else []) ++
      (match u.User with
        | some ui => ui.String ++ ['@']
        | none => []) ++
      (if u.Host ≠ "" then url.escape u.Host.data .encodeHost else [])
  else []

/-- `(*URL).String()`: reassembles the URL into a valid URL string. -/
def URL.String (u : URL) : String :=
  let head : List Char := if u.Scheme ≠ "" then u.Scheme.data ++ [':'] else []
  let body : List Char :=
    if u.Opaque ≠ "" then head ++ u.Opaque.data
    else
      let buf := head ++ u.authorityString
      let path := u.EscapedPath
      let buf :=
        if path ≠ [] ∧ path.head? ≠ some '/' ∧ u.Host ≠ "" then buf ++ ['/'] else buf
      let buf :=
        if buf = [] ∧ (url.cut path '/').1.contains ':' then buf ++ ['.', '/'] else buf
      buf ++ path
  let body := if u.ForceQuery ∨ u.RawQuery ≠ "" then body ++ '?' :: u.RawQuery.data else body
  ⟨if u.Fragment ≠ "" then body ++ '#' :: u.EscapedFragment else body⟩

/-! ## server.go: normalization -/

/-- `normalize` makes sure URLs with no path segment end with a slash,
for example: 'http://example.com' becomes 'http://example.com/'. -/
def normalize (u : URL) : URL :=
  if u.Path = "" then { u with Path := "/" } else u

/-! ## path and net/http

The parts of Go's `path` and `net/http` that the handlers go through. -/

namespace path

/-- `path.Split(path)`: the directory part, up to and including the final slash. -/
def SplitDir (p : List Char) : List Char :=
  match url.lastIndexByte p '/' with
  | some i => p.take (i + 1)
  | none => []

/-- The state of the loop of `path.Clean`: the read index `r`, the bytes written to the
buffer `out` (so that `out.w` is `out.length`) and the index `dotdot`. -/
structure CleanState where
  r : Nat
  out : List Char
  dotdot : Nat

/-- `for out.w > dotdot && out.index(out.w) != '/' { out.w-- }` on the index `w`. -/
def backtrack (out : List Char) (dotdot : Nat) : Nat → Nat
  | 0 => 0
  | w + 1 => if w + 1 > dotdot ∧ out.getD (w + 1) '/' ≠ '/' then backtrack out dotdot w else w + 1

/-- One iteration of the loop of `path.Clean`. -/
def cleanStep (p : List Char) (rooted : Bool) (s : CleanState) : CleanState :=
  let n := p.length
  if p.getD s.r '/' = '/' then { s with r := s.r + 1 }
  else if p.getD s.r '/' = '.' ∧ (s.r + 1 = n ∨ p.getD (s.r + 1) '/' = '/') then
    { s with r := s.r + 1 }
  else if p.getD s.r '/' = '.' ∧ p.getD (s.r + 1) '/' = '.'
      ∧ (s.r + 2 = n ∨ p.getD (s.r + 2) '/' = '/') then
    if s.out.length > s.dotdot then
      { s with r := s.r + 2, out := s.out.take (backtrack s.out s.dotdot (s.out.length - 1)) }
    else if ¬ rooted then
      let out := (if s.out.length > 0 then s.out ++ ['/'] else s.out) ++ ['.', '.']
      { r := s.r + 2, out := out, dotdot := out.length }
    else { s with r := s.r + 2 }
  else
    let out :=
      if (rooted ∧ s.out.length ≠ 1) ∨ (¬ rooted ∧ s.out.length ≠ 0) then s.out ++ ['/']
      else s.out
    let seg := (p.drop s.r).takeWhile (· ≠ '/')
    { s with r := s.r + seg.length, out := out ++ seg }

/-- The loop `for r < n` of `path.Clean`; every iteration advances `r`, so `n` iterations
are enough. -/
def cleanLoop (p : List Char) (rooted : Bool) : Nat → CleanState → CleanState
  | 0, s => s
  | k + 1, s => if s.r < p.length then cleanLoop p rooted k (cleanStep p rooted s) else s

/-- `path.Clean(path)`. -/
def Clean (p : List Char) : List Char :=
  if p = [] then ['.']
  else
    let rooted : Bool := p.head? = some '/'
    let s₀ : CleanState := if rooted then ⟨1, ['/'], 1⟩ else ⟨0, [], 0⟩
    let s := cleanLoop p rooted p.length s₀
    if s.out = [] then ['.'] else s.out

end path

namespace http

/-- One call of `Write` on the response: the arguments of the `fmt.Fprintf` that made it,
or literal text. -/
inductive Arg where
  | str (s : String) : Arg
  | int (n : Int) : Arg
  | err (e : Error) : Arg
  deriving DecidableEq, Repr

inductive Written where
  | fprintf (format : String) (args : List Arg) : Written
  | text (s : String) : Written
  deriving DecidableEq, Repr

/-- `http.Header`, with canonical keys. -/
abbrev Header := List (String × String)

/-- `Header.Set(key, value)`. -/
def Header.Set (h : Header) (key value : String) : Header :=
  (key, value) :: h.filter (fun kv => kv.1 ≠ key)

/-- `Header.Get(key)`. -/
def Header.Get (h : Header) (key : String) : String :=
  match h.find? (fun kv => kv.1 = key) with
  | some kv => kv.2
  | none => ""

/-- `http.ResponseWriter`: `header` is the map returned by `Header()`; `status` is the
code of the first `WriteHeader` (`none` while the header has not been written) and
`sent` the header map as it was then; `body` collects the calls of `Write`. -/
structure ResponseWriter where
  header : Header := []
  status : Option Nat := none
  sent : Header := []
  body : List Written := []
  deriving DecidableEq, Repr

/-- `WriteHeader(code)`: only the first call has an effect. -/
def ResponseWriter.WriteHeader (w : ResponseWriter) (code : Nat) : ResponseWriter :=
  match w.status with
  | some _ => w
  | none => { w with status := some code, sent := w.header }

/-- `Write(data)`: writes the header with status 200 first if it has not been written. -/
def ResponseWriter.Write (w : ResponseWriter) (data : Written) : ResponseWriter :=
  let w := w.WriteHeader 200
  { w with body := w.body ++ [data] }

/-- `http.Request`, as far as the handlers read it: `RequestURI` is the value of
`r.URL.RequestURI()`, `Path` is `r.URL.Path`, `TLS` tells whether `r.TLS != nil`. -/
structure Request where
  Method : String := "GET"
  RequestURI : String
  Path : String
  Host : String
  TLS : Bool := false
  deriving DecidableEq, Repr

def StatusOK : Nat := 200
def StatusFound : Nat := 302
def StatusBadRequest : Nat := 400
def StatusNotFound : Nat := 404
def StatusInternalServerError : Nat := 500

/-- `http.StatusText(code)` for the codes used here; the empty string otherwise. -/
def StatusText (code : Nat) : String :=
  if code = 200 then "OK"
  else if code = 302 then "Found"
  else if code = 400 then "Bad Request"
  else if code = 404 then "Not Found"
  else if code = 500 then "Internal Server Error"
  else ""

/-- `hexEscapeNonASCII(s)`: every byte from `0x80` on is replaced by `%` and its two
lowercase hexadecimal digits. -/
def hexEscapeNonASCII : List Char → List Char
  | [] => []
  | c :: cs =>
    if c.toNat ≥ 0x80 then
      '%' :: digitAt (c.toNat / 16 % 16) :: digitAt (c.toNat % 16) :: hexEscapeNonASCII cs
    else c :: hexEscapeNonASCII cs

/-- `htmlEscape(s)`. -/
def htmlEscape : List Char → List Char
  | [] => []
  | c :: cs =>
    (if c = '&' then "&amp;".data
     else if c = '<' then "&lt;".data
     else if c = '>' then "&gt;".data
     else if c = '"' then "&#34;".data
     else if c = '\'' then "&#39;".data
     else [c]) ++ htmlEscape cs

/-- The target `http.Redirect` computes from `url`: a URL that parses without scheme and
host is made absolute against the request path and cleaned. -/
def redirectTarget (r : Request) (target : List Char) : List Char :=
  match url.Parse ⟨target⟩ with
  | .error _ => target
  | .ok u =>
    if u.Scheme = "" ∧ u.Host = "" then
      let oldpath := if r.Path = "" then ['/'] else r.Path.data
      let target :=
        if target = [] ∨ target.head? ≠ some '/' then path.SplitDir oldpath ++ target
        else target
      let query := match url.index target ['?'] with
        | some i => target.drop i
        | none => []
      let target := match url.index target ['?'] with
        | some i => target.take i
        | none => target
      let trailing : Bool := target.getLast? = some '/'
      let target := path.Clean target
      let target := if trailing ∧ target.getLast? ≠ some '/' then target ++ ['/'] else target
      target ++ query
    else target

/-- `http.Redirect(w, r, url, code)`. -/
def Redirect (w : ResponseWriter) (r : Request) (target : String) (code : Nat) :
    ResponseWriter :=
  let target := redirectTarget r target.data
  let hadCT : Bool := w.header.any (fun kv => kv.1 = "Content-Type")
  let w := { w with header := Header.Set w.header "Location" ⟨hexEscapeNonASCII target⟩ }
  let w :=
    if ¬ hadCT ∧ (r.Method = "GET" ∨ r.Method = "HEAD") then
      { w with header := Header.Set w.header "Content-Type" "text/html; charset=utf-8" }
    else w
  let w := w.WriteHeader code
  if ¬ hadCT ∧ r.Method = "GET" then
    w.Write (.text (("<a href=\"" ++ String.mk (htmlEscape target) ++ "\">" ++ StatusText code
      ++ "</a>.\n") ++ "\n"))
  else w

end http

open http in
/-- `Index` keeps track of the ID -> URL mapping (`index.go`).  `σ` is the state behind
the interface value; each method returns its results and the state after the call. -/
structure Index (σ : Type) where
  LookupID : σ → Int → (String × Option Error) × σ
  AddURL : σ → String → (Int × Option Error) × σ

/-! ## server.go: the handlers -/

open http in
/-- `writeShortLink` writes a short link as an absolute URL to the client. -/
def writeShortLink (w : ResponseWriter) (r : Request) (id : Int) : ResponseWriter :=
  let scheme := if ¬ r.TLS then "http" else "https"
  w.Write (.fprintf "%s://%s/%s\n" [.str scheme, .str r.Host, .str (formatID id)])

open http in
/-- `writeError` writes a printf-formatted response using the specified status code to
the client. -/
def writeError (w : ResponseWriter) (status : Nat) (format : String) (args : List Arg) :
    ResponseWriter :=
  (w.WriteHeader status).Write (.fprintf (format ++ "\n") args)

open http in
/-- `(*Server).shorten` handles requests with an absolute URL as request path: it adds the
URL to the index, then responds with an absolute short URL.  The log line is not part of
the model. -/
def shorten {σ : Type} (index : Index σ) (st : σ) (w : ResponseWriter) (r : Request) :
    ResponseWriter × σ :=
  let urlToShorten : String := ⟨r.RequestURI.data.drop 1⟩
  match url.Parse urlToShorten with
  | .error err =>
    (writeError w StatusBadRequest "could not parse '%s' as URL: %v"
      [.str urlToShorten, .err err], st)
  | .ok _longURL =>
    let longURL := (normalize _longURL).String
    match index.AddURL st longURL with
    | ((_, some err), st) =>
      (writeError w StatusInternalServerError "error adding URL to index: %v" [.err err], st)
    | ((shortID, none), st) => (writeShortLink w r shortID, st)

open http in
/-- `(*Server).resolve` handles all requests where the request path could be a base36
encoded ID: it parses the shortID and looks for a URL mapped to it in the index; if
successful, the request is redirected to that URL.  The log line is not part of the
model. -/
def resolve {σ : Type} (index : Index σ) (st : σ) (w : ResponseWriter) (r : Request)
    (shortID : String) : ResponseWriter × σ :=
  let w :=
    match (parseID shortID).2 with
    | some err =>
      writeError w StatusInternalServerError "error parsing ID as base36 integer: %v" [.err err]
    | none => w
  match index.LookupID st (parseID shortID).1 with
  | ((_, some err), st) =>
    if err.isNotFound then
      (writeError w StatusNotFound "unknown link ID %s (parsed as %d)"
        [.str shortID, .int (parseID shortID).1], st)
    else (writeError w StatusInternalServerError "error shortening URL: %v" [.err err], st)
  | ((longURL, none), st) => (Redirect w r longURL StatusFound, st)

/-- The `SQLiteIndex` as an `Index`, for one request whose storage calls have the given
outcomes. -/
def sqliteIndex (execFault queryFault lookupFault : Option Error) : Index SQLiteIndex where
  LookupID := fun i id => i.LookupID id lookupFault
  AddURL := fun i longURL => i.AddURL longURL execFault queryFault

/-! ## Codec: auxiliary notions used in the statements -/

/-- The base-36 alphabet of the specification: digits, and letters in either case. -/
def isBase36 (c : Char) : Prop :=
  ('0'.toNat ≤ c.toNat ∧ c.toNat ≤ '9'.toNat) ∨ ('a'.toNat ≤ c.toNat ∧ c.toNat ≤ 'z'.toNat)
    ∨ ('A'.toNat ≤ c.toNat ∧ c.toNat ≤ 'Z'.toNat)

instance (c : Char) : Decidable (isBase36 c) := by unfold isBase36; infer_instance

/-- The number a digit string denotes in base 36, continuing from `n`. -/
def value36 (cs : List Char) (n : Nat) : Nat :=
  cs.foldl (fun n c => n * 36 + (digitVal c).getD 0) n

/-- The string without one leading sign, if it has one (`ParseInt` picks off the sign). -/
def unsignedPart (s : String) : List Char :=
  match s.data with
  | [] => []
  | c :: cs => if c = '+' ∨ c = '-' then cs else c :: cs

/-- Whether the string begins with a minus sign. -/
def isNegative (s : String) : Prop := s.data.head? = some '-'

instance (s : String) : Decidable (isNegative s) := by unfold isNegative; infer_instance

/-- The integer a signed digit string denotes. -/
def signedValue (s : String) : Int :=
  if isNegative s then -(value36 (unsignedPart s) 0 : Int) else (value36 (unsignedPart s) 0 : Int)

/-- `strings.ToLower` on an ASCII string: the letters `A`–`Z` are mapped to `a`–`z`. -/
def ToLower (s : String) : String := ⟨s.data.map Char.toLower⟩

/-! ## Index: auxiliary notions used in the statements -/

/-- The constraints the engine maintains on `links`: `id` is a primary key, `longURL` is
unique, and no rowid exceeds the `AUTOINCREMENT` counter, which is an int64. -/
def DB.Valid (db : DB) : Prop :=
  (db.rows.map Row.id).Nodup ∧ (db.rows.map Row.longURL).Nodup
    ∧ (∀ r ∈ db.rows, r.id ≤ db.seq) ∧ 0 ≤ db.seq ∧ db.seq ≤ maxInt64

instance (db : DB) : Decidable db.Valid := by unfold DB.Valid; infer_instance

/-- One call on the index: `AddURL` with its two storage outcomes, or `LookupID`. -/
inductive Call where
  | addURL (longURL : String) (execFault queryFault : Option Error) : Call
  | lookupID (id : Int) (fault : Option Error) : Call
  deriving DecidableEq, Repr

/-- The index after a call. -/
def SQLiteIndex.after (i : SQLiteIndex) : Call → SQLiteIndex
  | .addURL u f1 f2 => (i.AddURL u f1 f2).2
  | .lookupID id f => (i.LookupID id f).2

/-- The index reached from the empty `links` table by a sequence of calls. -/
def SQLiteIndex.run (calls : List Call) : SQLiteIndex :=
  calls.foldl SQLiteIndex.after ⟨DB.empty⟩

/-! ## Handlers: auxiliary notions used in the statements -/

/-- All bytes of the string are ASCII. -/
def isASCII (s : String) : Prop := ∀ c ∈ s.data, c.toNat < 0x80

instance (s : String) : Decidable (isASCII s) := by unfold isASCII; infer_instance

/-- The string parses as a reference without scheme and host, which `http.Redirect`
resolves against the request path. -/
def isRelativeReference (s : String) : Prop :=
  ∃ u, url.Parse s = .ok u ∧ u.Scheme = "" ∧ u.Host = ""

/-- The URL to shorten of a request, `r.URL.RequestURI()[1:]`. -/
def urlToShorten (r : http.Request) : String := ⟨r.RequestURI.data.drop 1⟩

/-- The requests `SetupRoutes` passes to `shorten`: the patterns `/http://*` and
`/https://*`. -/
def routedToShorten (r : http.Request) : Prop :=
  "http://".data.isPrefixOf (urlToShorten r).data = true
    ∨ "https://".data.isPrefixOf (urlToShorten r).data = true

instance (r : http.Request) : Decidable (routedToShorten r) := by
  unfold routedToShorten; infer_instance

/-- A plain-HTTP GET request to `localhost:5656` whose `r.URL.RequestURI()` and
`r.URL.Path` are the given strings. -/
def exampleRequest (requestURI path : String) : http.Request :=
  { RequestURI := requestURI, Path := path, Host := "localhost:5656" }

/-- The index after a list of further `shorten` requests, each with the outcomes of the
storage calls of its `AddURL`. -/
def shortenAll (i : SQLiteIndex) :
    List (http.Request × Option Error × Option Error) → SQLiteIndex
  | [] => i
  | q :: qs => shortenAll (shorten (sqliteIndex q.2.1 q.2.2 none) i {} q.1).2 qs

/-! ## Concurrent `AddURL` calls

`N` goroutines each run `AddURL(u)` on one `SQLiteIndex`.  A goroutine moves through the
statements of `AddURL` one at a time; which goroutine moves next is decided by an
arbitrary schedule. -/

/-- Where a goroutine running `AddURL` stands: before `i.l.Lock()`; holding the mutex
before `db.Exec`; holding the mutex after a successful `db.Exec`, before `db.QueryRow`;
holding the mutex with its return values fixed, the deferred `i.l.Unlock()` pending; and
returned, with the mutex released. -/
inductive Phase where
  | start : Phase
  | locked : Phase
  | inserted : Phase
  | returning (res : Int × Option Error) : Phase
  | done (res : Int × Option Error) : Phase
  deriving DecidableEq, Repr

/-- Whether a goroutine in this phase holds the mutex `i.l`. -/
def Phase.critical : Phase → Bool
  | .locked => true
  | .inserted => true
  | .returning _ => true
  | _ => false

/-- The number of statements a goroutine in this phase has at most left to run. -/
def Phase.rank : Phase → Nat
  | .start => 4
  | .locked => 3
  | .inserted => 2
  | .returning _ => 1
  | .done _ => 0

/-- The `SQLiteIndex` shared by the goroutines: its database, the goroutine that holds
the mutex `l`, and the phase of every goroutine. -/
structure Concurrent where
  db : DB
  holder : Option Nat
  phases : Nat → Phase

/-- All goroutines are about to call `AddURL`; the mutex is free. -/
def Concurrent.init (db : DB) : Concurrent := ⟨db, none, fun _ => .start⟩

/-- The phases with that of goroutine `g` replaced. -/
def setPhase (phases : Nat → Phase) (g : Nat) (p : Phase) : Nat → Phase :=
  fun h => if h = g then p else phases h

/-- Goroutine `g` runs its next statement of `AddURL(u)`; `fault` is the failure reported
if that statement is a storage call.  `i.l.Lock()` goes through only when the mutex is
free, otherwise the goroutine stays blocked; a goroutine that has returned does nothing. -/
def Concurrent.step (N : Nat) (u : String) (s : Concurrent) (g : Nat)
    (fault : Option Error) : Concurrent :=
  if g < N then
    match s.phases g with
    | .start =>
      if s.holder = none then { s with holder := some g, phases := setPhase s.phases g .locked }
      else s
    | .locked =>
      match (execInsertOrIgnore s.db u fault).2 with
      | some err =>
        { s with
          db := (execInsertOrIgnore s.db u fault).1
          phases := setPhase s.phases g
            (.returning (-1, some (.wrapped "error adding shortlink to database" err))) }
      | none =>
        { s with
          db := (execInsertOrIgnore s.db u fault).1
          phases := setPhase s.phases g .inserted }
    | .inserted =>
      match (queryID s.db u fault).2 with
      | some err =>
        { s with
          phases := setPhase s.phases g
            (.returning (-1, some (.wrapped "error getting ID of added URL from database" err))) }
      | none => { s with phases := setPhase s.phases g (.returning ((queryID s.db u fault).1, none)) }
    | .returning res => { s with holder := none, phases := setPhase s.phases g (.done res) }
    | .done _ => s
  else s

/-- The state after the moves of a schedule, each a goroutine and the failure reported
for its storage call. -/
def Concurrent.steps (N : Nat) (u : String) (s : Concurrent)
    (schedule : List (Nat × Option Error)) : Concurrent :=
  schedule.foldl (fun s q => s.step N u q.1 q.2) s

/-- `N` concurrent `AddURL(u)` calls on the table `db`, run under a schedule. -/
def Concurrent.run (N : Nat) (u : String) (db : DB) (schedule : List (Nat × Option Error)) :
    Concurrent :=
  Concurrent.steps N u (Concurrent.init db) schedule

/-- The schedule that lets each goroutine of the list run four statements in a row, with no
storage failure. -/
def finishAll : List Nat → List (Nat × Option Error)
  | [] => []
  | g :: gs => (g, none) :: (g, none) :: (g, none) :: (g, none) :: finishAll gs

/-- What holds in every state of the concurrent calls: the table meets its constraints, a
goroutine holds the mutex exactly when it stands between `Lock` and `Unlock`, only the
`N` goroutines move, a successful insert or return is backed by a row for `u`, and at
most one row, for `u`, has been added to the table `db₀`. -/
structure Concurrent.Inv (N : Nat) (u : String) (db₀ : DB) (s : Concurrent) : Prop where
  valid : s.db.Valid
  mutex : ∀ g, (s.phases g).critical = true ↔ s.holder = some g
  bound : ∀ g, N ≤ g → s.phases g = .start
  inserted : ∀ g, s.phases g = .inserted → u ∈ s.db.rows.map Row.longURL
  result : ∀ g id, (s.phases g = .returning (id, none) ∨ s.phases g = .done (id, none)) →
    ∃ r ∈ s.db.rows, r.longURL = u ∧ r.id = id
  created : s.db.rows = db₀.rows ∨ ∃ v, s.db.rows = db₀.rows ++ [⟨v, u⟩]

/-! ## Codec: lemmas -/

theorem digitVal_digitAt : ∀ u, u < 36 → digitVal (digitAt u) = some u := by decide

theorem digitVal_plus : digitVal '+' = none := by decide

theorem digitVal_minus : digitVal '-' = none := by decide

theorem digitVal_lt {c : Char} {d : Nat} (h : digitVal c = some d) : d < 36 := by
  unfold digitVal at h
  split at h
  · rename_i h1
    simp only [Option.some.injEq] at h
    have : '0'.toNat = 48 := rfl
    have : '9'.toNat = 57 := rfl
    omega
  · split at h
    · rename_i h1 h2
      simp only [Option.some.injEq] at h
      have : 'a'.toNat = 97 := rfl
      have : 'z'.toNat = 122 := rfl
      omega
    · exact absurd h (by simp)

theorem lower_ge128 (n : Nat) (h : 128 ≤ n) : 128 ≤ lower n := by
  obtain ⟨i, hi, hb⟩ := Nat.ge_two_pow_implies_high_bit_true (x := n) (n := 7) (by simpa using h)
  have hl : (lower n).testBit i = true := by
    unfold lower
    rw [Nat.testBit_or, hb]; rfl
  have h2 := Nat.testBit_implies_ge hl
  have : 2 ^ 7 ≤ 2 ^ i := Nat.pow_le_pow_right (by norm_num) hi
  omega

theorem lower_small : ∀ n, n < 128 →
    ((97 ≤ lower n ∧ lower n ≤ 122) ↔ ((97 ≤ n ∧ n ≤ 122) ∨ (65 ≤ n ∧ n ≤ 90))) := by
  decide

theorem lower_upper : ∀ n, n < 128 → 65 ≤ n → n ≤ 90 → lower n = n + 32 := by decide

theorem lower_lower : ∀ n, n < 128 → 97 ≤ n → n ≤ 122 → lower n = n := by decide

theorem lower_letter (n : Nat) :
    (97 ≤ lower n ∧ lower n ≤ 122) ↔ ((97 ≤ n ∧ n ≤ 122) ∨ (65 ≤ n ∧ n ≤ 90)) := by
  by_cases h : n < 128
  · exact lower_small n h
  · have := lower_ge128 n (by omega)
    omega

theorem digitVal_ne_none_iff (c : Char) : digitVal c ≠ none ↔ isBase36 c := by
  have h0 : '0'.toNat = 48 := rfl
  have h9 : '9'.toNat = 57 := rfl
  have ha : 'a'.toNat = 97 := rfl
  have hz : 'z'.toNat = 122 := rfl
  have hA : 'A'.toNat = 65 := rfl
  have hZ : 'Z'.toNat = 90 := rfl
  have hl := lower_letter c.toNat
  unfold digitVal isBase36
  rw [h0, h9, ha, hz, hA, hZ]
  split
  · simp; omega
  · split
    · simp; omega
    · simp; omega

theorem toNat_toLower (c : Char) :
    c.toLower.toNat = if 65 ≤ c.toNat ∧ c.toNat ≤ 90 then c.toNat + 32 else c.toNat := by
  unfold Char.toLower
  simp only [ge_iff_le]
  split
  · rename_i h
    have hv : (c.toNat + 32).isValidChar := by
      unfold Nat.isValidChar; omega
    rw [Char.ofNat, dif_pos hv]
    rfl
  · rfl

theorem digitVal_toLower (c : Char) : digitVal c.toLower = digitVal c := by
  unfold digitVal
  rw [toNat_toLower]
  have h0 : '0'.toNat = 48 := rfl
  have h9 : '9'.toNat = 57 := rfl
  have ha : 'a'.toNat = 97 := rfl
  have hz : 'z'.toNat = 122 := rfl
  rw [h0, h9, ha, hz]
  by_cases h : 65 ≤ c.toNat ∧ c.toNat ≤ 90
  · have h1 := lower_upper c.toNat (by omega) h.1 h.2
    have h2 := lower_lower (c.toNat + 32) (by omega) (by omega) (by omega)
    rw [if_pos h, h1, h2]
    rw [if_neg (show ¬ (48 ≤ c.toNat + 32 ∧ c.toNat + 32 ≤ 57) by omega),
      if_pos (show 97 ≤ c.toNat + 32 ∧ c.toNat + 32 ≤ 122 by omega),
      if_neg (show ¬ (48 ≤ c.toNat ∧ c.toNat ≤ 57) by omega)]
  · rw [if_neg h]

theorem toLower_eq_sign (c : Char) :
    (c.toLower = '+' ↔ c = '+') ∧ (c.toLower = '-' ↔ c = '-') := by
  have h := toNat_toLower c
  have hp : '+'.toNat = 43 := rfl
  have hm : '-'.toNat = 45 := rfl
  have key : ∀ a b : Char, a = b ↔ a.toNat = b.toNat := by
    intro a b
    constructor
    · intro h; rw [h]
    · intro h; exact Char.ext (UInt32.ext (by simpa [Char.toNat, UInt32.toNat] using h))
  rw [key, key c, key, key c, h, hp, hm]
  split <;> omega

theorem value36_ge (cs : List Char) (n : Nat) : n ≤ value36 cs n := by
  induction cs generalizing n with
  | nil => exact Nat.le_refl n
  | cons c cs ih =>
    have h := ih (n * 36 + (digitVal c).getD 0)
    have e : value36 (c :: cs) n = value36 cs (n * 36 + (digitVal c).getD 0) := rfl
    omega

theorem value36_cons (c : Char) (cs : List Char) (n : Nat) :
    value36 (c :: cs) n = value36 cs (n * 36 + (digitVal c).getD 0) := rfl

/-- The loop of `ParseUint` reports either no error, a syntax error or a range error. -/
theorem parseUintLoop_err (cs : List Char) (n : Nat) :
    (parseUintLoop cs n).2 = none ∨ parseUintLoop cs n = (0, some .numSyntax)
      ∨ parseUintLoop cs n = (maxUint64, some .numRange) := by
  induction cs generalizing n with
  | nil => left; rfl
  | cons c cs ih =>
    unfold parseUintLoop
    split
    · right; left; rfl
    · split
      · right; left; rfl
      · split
        · right; right; rfl
        · simp only
          split
          · right; right; rfl
          · exact ih _

/-- The loop of `ParseUint` succeeds exactly on digit strings whose value fits in 64 bits,
and then returns that value. -/
theorem parseUintLoop_ok (cs : List Char) (n : Nat) (hn : n ≤ maxUint64) :
    ((parseUintLoop cs n).2 = none ↔
      ((∀ c ∈ cs, digitVal c ≠ none) ∧ value36 cs n ≤ maxUint64)) ∧
    ((parseUintLoop cs n).2 = none → (parseUintLoop cs n).1 = value36 cs n) := by
  induction cs generalizing n with
  | nil => simp [parseUintLoop, value36, hn]
  | cons c cs ih =>
    have hmax : maxUint64 = 18446744073709551615 := by unfold maxUint64; norm_num
    rw [value36_cons]
    unfold parseUintLoop
    cases hd : digitVal c with
    | none => simp [hd]
    | some d =>
      have hlt := digitVal_lt hd
      have hge := value36_ge cs (n * 36 + d)
      simp only [Option.getD_some, List.mem_cons, forall_eq_or_imp, hd, ne_eq,
        not_false_eq_true, reduceCtorEq, true_and]
      rw [if_neg (by omega)]
      rw [hmax] at hn ⊢
      split
      · rename_i h1
        simp only [reduceCtorEq, false_iff, not_and, not_le, false_implies, and_true]
        intro _; omega
      · rename_i h1
        have e1 : n * 36 % 2 ^ 64 = n * 36 := Nat.mod_eq_of_lt (by omega)
        rw [e1]
        by_cases hov : n * 36 + d ≤ 18446744073709551615
        · have e2 : (n * 36 + d) % 2 ^ 64 = n * 36 + d := Nat.mod_eq_of_lt (by omega)
          rw [e2, if_neg (by omega)]
          have := ih (n * 36 + d) (by omega)
          rw [hmax] at this
          exact this
        · have e2 : (n * 36 + d) % 2 ^ 64 = n * 36 + d - 2 ^ 64 := by
            rw [Nat.mod_eq_sub_mod (by omega)]
            exact Nat.mod_eq_of_lt (by omega)
          rw [e2, if_pos (by omega)]
          simp only [reduceCtorEq, false_iff, not_and, not_le, false_implies, and_true]
          intro _; omega

/-- What `ParseInt` returns, by cases on the sign and on the unsigned parse. -/
theorem ParseInt_cons (c : Char) (cs : List Char) :
    ParseInt ⟨c :: cs⟩ =
      (let body := if c = '+' ∨ c = '-' then cs else c :: cs
       if body = [] then (0, some .numSyntax)
       else if parseUintLoop body 0 = (0, some .numSyntax) then (0, some .numSyntax)
       else if (parseUintLoop body 0).2 = none then
         (if c ≠ '-' ∧ (parseUintLoop body 0).1 ≥ 2 ^ 63 then (2 ^ 63 - 1, some .numRange)
          else if c = '-' ∧ (parseUintLoop body 0).1 > 2 ^ 63 then (-(2 ^ 63), some .numRange)
          else if c = '-' then (-((parseUintLoop body 0).1 : Int), none)
          else (((parseUintLoop body 0).1 : Int), none))
       else if c = '-' then (-(2 ^ 63), some .numRange) else (2 ^ 63 - 1, some .numRange)) := by
  have hmax : maxUint64 = 18446744073709551615 := by unfold maxUint64; norm_num
  simp only [ParseInt, ParseUint]
  generalize (if c = '+' ∨ c = '-' then cs else c :: cs) = body
  by_cases hb : body = []
  · simp [hb]
  · simp only [hb, if_false]
    rcases parseUintLoop_err body 0 with h | h | h
    · rcases hp : parseUintLoop body 0 with ⟨un, e⟩
      rw [hp] at h
      simp only at h
      subst h
      simp
    · rw [h]; simp
    · rw [h, hmax]
      by_cases hc : c = '-' <;> simp [hc]

/-- `ParseInt` succeeds exactly on an optionally signed, non-empty digit string whose
value is an int64, and then returns that value. -/
theorem ParseInt_spec (s : String) :
    ((ParseInt s).2 = none ↔
      (unsignedPart s ≠ [] ∧ (∀ c ∈ unsignedPart s, isBase36 c)
        ∧ minInt64 ≤ signedValue s ∧ signedValue s ≤ maxInt64)) ∧
    ((ParseInt s).2 = none → (ParseInt s).1 = signedValue s) := by
  have hmax : maxUint64 = 18446744073709551615 := by unfold maxUint64; norm_num
  obtain ⟨l⟩ := s
  cases l with
  | nil => simp [ParseInt, unsignedPart]
  | cons c cs =>
    rw [ParseInt_cons]
    have hneg : isNegative ⟨c :: cs⟩ ↔ c = '-' := by simp [isNegative]
    have hbody : unsignedPart ⟨c :: cs⟩ = if c = '+' ∨ c = '-' then cs else c :: cs := rfl
    simp only [signedValue, hneg, hbody, minInt64, maxInt64]
    generalize (if c = '+' ∨ c = '-' then cs else c :: cs) = body
    simp only [← digitVal_ne_none_iff]
    have hok := parseUintLoop_ok body 0 (Nat.zero_le _)
    rw [hmax] at hok
    by_cases hb : body = []
    · simp [hb]
    · simp only [hb, if_false, ne_eq, not_false_eq_true, true_and]
      by_cases h1 : parseUintLoop body 0 = (0, some .numSyntax)
      · have h2 : (parseUintLoop body 0).2 ≠ none := by rw [h1]; simp
        have h3 := mt hok.1.2 h2
        simp only [h1, if_true, reduceCtorEq, false_iff, false_implies, and_true]
        intro h4
        apply h3
        refine ⟨h4.1, ?_⟩
        have := h4.2
        split at this <;> omega
      · simp only [h1, if_false]
        by_cases h2 : (parseUintLoop body 0).2 = none
        · have hv := hok.2 h2
          have hfit := (hok.1.1 h2)
          simp only [h2, if_true, hv]
          by_cases hc : c = '-'
          · simp only [hc, ne_eq, not_true_eq_false, false_and, if_false, true_and, if_true]
            split
            · simp only [reduceCtorEq, false_iff, false_implies, and_true]
              intro h4; omega
            · simp only [true_iff, implies_true, and_true]
              exact ⟨hfit.1, by omega, by omega⟩
          · simp only [hc, ne_eq, not_false_eq_true, true_and, false_and, if_false]
            split
            · simp only [reduceCtorEq, false_iff, false_implies, and_true]
              intro h4; omega
            · simp only [true_iff, implies_true, and_true]
              exact ⟨hfit.1, by omega, by omega⟩
        · have h3 := mt hok.1.2 h2
          simp only [h2, if_false]
          have : ∀ (a b : Int × Option Error), a.2 ≠ none → b.2 ≠ none →
              ∀ P : Prop, ¬ P → (((if c = '-' then a else b).2 = none ↔ P) ∧
                ((if c = '-' then a else b).2 = none →
                  (if c = '-' then a else b).1 =
                    if c = '-' then -(value36 body 0 : Int) else (value36 body 0 : Int))) := by
            intro a b ha hb' P hP
            split <;> simp_all
          apply this _ _ (by simp) (by simp)
          intro h4
          apply h3
          refine ⟨h4.1, ?_⟩
          have := h4.2
          split at this <;> omega

theorem formatBitsLoop_value (room u : Nat) (acc : List Char) (h : u < 36 ^ room) :
    value36 (formatBitsLoop room u acc) 0 = value36 acc u := by
  induction room generalizing u acc with
  | zero =>
    have : u = 0 := by simpa using h
    subst this; rfl
  | succ room ih =>
    unfold formatBitsLoop
    split
    · have hq : u / 36 < 36 ^ room := by
        rw [Nat.div_lt_iff_lt_mul (by norm_num)]
        rw [pow_succ] at h; exact h
      rw [ih (u / 36) _ hq, value36_cons, digitVal_digitAt _ (by omega)]
      simp only [Option.getD_some]
      congr 1
      omega
    · rw [value36_cons, digitVal_digitAt _ (by omega)]
      simp

theorem formatBitsLoop_valid (room u : Nat) (acc : List Char)
    (h : ∀ c ∈ acc, digitVal c ≠ none) :
    ∀ c ∈ formatBitsLoop room u acc, digitVal c ≠ none := by
  induction room generalizing u acc with
  | zero => exact h
  | succ room ih =>
    unfold formatBitsLoop
    split
    · apply ih
      intro c hc
      rcases List.mem_cons.1 hc with rfl | hc
      · rw [digitVal_digitAt _ (by omega)]; simp
      · exact h c hc
    · intro c hc
      rcases List.mem_cons.1 hc with rfl | hc
      · rw [digitVal_digitAt _ (by omega)]; simp
      · exact h c hc

theorem formatBitsLoop_ne_nil (room u : Nat) (acc : List Char) (h : room ≠ 0 ∨ acc ≠ []) :
    formatBitsLoop room u acc ≠ [] := by
  induction room generalizing u acc with
  | zero =>
    rcases h with h | h
    · exact absurd rfl h
    · exact h
  | succ room ih =>
    unfold formatBitsLoop
    split
    · exact ih _ _ (Or.inr (by simp))
    · simp

/-- `ParseInt` on an unsigned digit string below `2^63`. -/
theorem ParseInt_digits (l : List Char) (hne : l ≠ []) (hv : ∀ c ∈ l, digitVal c ≠ none)
    (hfit : value36 l 0 < 2 ^ 63) : ParseInt ⟨l⟩ = (((value36 l 0 : Nat) : Int), none) := by
  have hu : unsignedPart ⟨l⟩ = l := by
    cases l with
    | nil => rfl
    | cons c cs =>
      have hc := hv c (by simp)
      have : ¬ (c = '+' ∨ c = '-') := by
        rintro (rfl | rfl)
        · exact hc digitVal_plus
        · exact hc digitVal_minus
      simp [unsignedPart, this]
  have hn : ¬ isNegative ⟨l⟩ := by
    cases l with
    | nil => simp [isNegative]
    | cons c cs =>
      have hc := hv c (by simp)
      simp only [isNegative, List.head?_cons, Option.some.injEq]
      rintro rfl
      exact hc digitVal_minus
  have hs := ParseInt_spec ⟨l⟩
  have hsv : signedValue ⟨l⟩ = (value36 l 0 : Nat) := by simp [signedValue, hn, hu]
  rw [hu, hsv] at hs
  have hok : (ParseInt ⟨l⟩).2 = none := by
    apply hs.1.2
    refine ⟨hne, fun c hc => (digitVal_ne_none_iff c).1 (hv c hc), ?_, ?_⟩
    · unfold minInt64; omega
    · unfold maxInt64; omega
  exact Prod.ext (hs.2 hok) hok

/-- `FormatInt` of a non-negative int64 is its digit string. -/
theorem FormatInt_nonneg (x : Int) (h0 : 0 ≤ x) (h1 : x ≤ 2 ^ 63 - 1) :
    FormatInt x = ⟨formatBitsLoop 65 x.toNat []⟩ := by
  have e : (x % 2 ^ 64).toNat = x.toNat := by
    rw [Int.emod_eq_of_lt h0 (by omega)]
  have hn : ¬ x < 0 := by omega
  unfold FormatInt formatBits
  rw [e]
  simp [hn]

/-- The codec round trip on the non-negative int64 values. -/
theorem parseID_formatID_nonneg (x : Int) (h0 : 0 ≤ x) (h1 : x ≤ 2 ^ 63 - 1) :
    parseID (formatID x) = (x, none) := by
  unfold parseID formatID
  rw [FormatInt_nonneg x h0 h1]
  have hval : value36 (formatBitsLoop 65 x.toNat []) 0 = x.toNat := by
    rw [formatBitsLoop_value]
    · rfl
    · have : (2 : Nat) ^ 63 ≤ 36 ^ 65 := by norm_num
      omega
  rw [ParseInt_digits _ (formatBitsLoop_ne_nil _ _ _ (Or.inl (by norm_num)))
    (formatBitsLoop_valid _ _ _ (by simp)) (by rw [hval]; omega), hval]
  simp [Int.toNat_of_nonneg h0]

theorem parseUintLoop_toLower (cs : List Char) (n : Nat) :
    parseUintLoop (cs.map Char.toLower) n = parseUintLoop cs n := by
  induction cs generalizing n with
  | nil => rfl
  | cons c cs ih =>
    simp only [List.map_cons, parseUintLoop, digitVal_toLower, ih]

/-- `ParseInt` does not distinguish the case of letters. -/
theorem ParseInt_ToLower (s : String) : ParseInt (ToLower s) = ParseInt s := by
  obtain ⟨l⟩ := s
  cases l with
  | nil => rfl
  | cons c cs =>
    have hs := toLower_eq_sign c
    have e : (if c = '+' ∨ c = '-' then cs.map Char.toLower
        else c.toLower :: cs.map Char.toLower)
        = (if c = '+' ∨ c = '-' then cs else c :: cs).map Char.toLower := by
      split <;> rfl
    simp only [ToLower, List.map_cons, ParseInt, ParseUint, hs.1, hs.2, e,
      parseUintLoop_toLower, List.map_eq_nil_iff]

/-! ## Codec: the claims -/

/-- C1. For every integer `x` with `1 ≤ x ≤ 2^63-1`, `parseID (formatID x)` succeeds
(the error is `nil`) and returns exactly `x`. -/
theorem parseID_formatID_roundtrip (x : Int) (h1 : 1 ≤ x) (h2 : x ≤ 2 ^ 63 - 1) :
    parseID (formatID x) = (x, none) :=
  parseID_formatID_nonneg x (by omega) h2

/-- Witness for C1 at the largest int64, whose code is `1y2p0ij32e8e7`. -/
theorem parseID_formatID_roundtrip_witness :
    formatID (2 ^ 63 - 1) = "1y2p0ij32e8e7" ∧ parseID (formatID (2 ^ 63 - 1)) = (2 ^ 63 - 1, none) :=
  ⟨by decide, parseID_formatID_roundtrip (2 ^ 63 - 1) (by norm_num) (by norm_num)⟩

/-- C6, refuted as stated: the string `-1` contains the character `-`, which is outside
the base-36 alphabet, and yet `parseID` succeeds on it and returns `-1`, because
`strconv.ParseInt` picks off a leading sign. -/
theorem parseID_sign_counterexample :
    ('-' ∈ "-1".data ∧ ¬ isBase36 '-') ∧ parseID "-1" = (-1, none) := by
  decide

/-- C6, amended.  Let the unsigned part of `s` be `s` without one leading `+` or `-`.
If the unsigned part is empty (in particular if `s` is empty), or contains a character
outside the base-36 alphabet, or the signed value `s` denotes is not an int64, then
`parseID s` fails with an error; for every other `s`, `parseID s` succeeds, returns the
value `s` denotes, and returns the same for the lowercase form of `s`. -/
theorem parseID_spec (s : String) :
    (s = "" → (parseID s).2 ≠ none) ∧
    ((unsignedPart s = [] ∨ (∃ c ∈ unsignedPart s, ¬ isBase36 c)
        ∨ signedValue s < minInt64 ∨ maxInt64 < signedValue s) → (parseID s).2 ≠ none) ∧
    (¬ (unsignedPart s = [] ∨ (∃ c ∈ unsignedPart s, ¬ isBase36 c)
        ∨ signedValue s < minInt64 ∨ maxInt64 < signedValue s) →
      (parseID s).2 = none ∧ (parseID s).1 = signedValue s
        ∧ parseID (ToLower s) = parseID s) := by
  have hs := ParseInt_spec s
  refine ⟨?_, ?_, ?_⟩
  · rintro rfl; decide
  · intro h hok
    have h2 := hs.1.1 hok
    rcases h with h | ⟨c, hc, hn⟩ | h | h
    · exact h2.1 h
    · exact hn (h2.2.1 c hc)
    · omega
    · omega
  · intro h
    simp only [not_or, not_exists, not_and, not_not, not_lt] at h
    have hok : (parseID s).2 = none := hs.1.2 ⟨h.1, h.2.1, h.2.2.1, h.2.2.2⟩
    exact ⟨hok, hs.2 hok, ParseInt_ToLower s⟩

/-! ## Index: lemmas -/

theorem newRowid_some {db : DB} {v : Int} (h : newRowid db = some v) :
    db.seq < v ∧ v ≤ maxInt64 := by
  unfold newRowid at h
  simp only at h
  split at h
  · exact absurd h (by simp)
  · simp only [Option.some.injEq] at h
    have := le_max_right (maxRowid db.rows) db.seq
    omega

/-- What the insert does to the table: nothing, or it consumes a rowid and, unless the URL
is already there, appends a row with it. -/
theorem execInsertOrIgnore_cases (db : DB) (u : String) (fault : Option Error) :
    (execInsertOrIgnore db u fault).1 = db ∨
    (∃ v, newRowid db = some v ∧ db.rows.any (fun r => r.longURL = u) = true ∧
      (execInsertOrIgnore db u fault).1 = { db with seq := v }) ∨
    (∃ v, newRowid db = some v ∧ db.rows.any (fun r => r.longURL = u) = false ∧
      (execInsertOrIgnore db u fault).1 = { rows := db.rows ++ [⟨v, u⟩], seq := v }) := by
  unfold execInsertOrIgnore
  cases fault with
  | some e => left; rfl
  | none =>
    cases hv : newRowid db with
    | none => left; rfl
    | some v =>
      right
      by_cases ha : db.rows.any (fun r => r.longURL = u) = true
      · left; exact ⟨v, rfl, ha, by simp [ha]⟩
      · simp only [Bool.not_eq_true] at ha
        right; exact ⟨v, rfl, ha, by simp [ha]⟩

/-- An insert that reports no error has consumed a rowid; it leaves the rows of a table
that already holds the URL as they are, and otherwise appends a row. -/
theorem execInsertOrIgnore_ok {db : DB} {u : String} {fault : Option Error}
    (h : (execInsertOrIgnore db u fault).2 = none) :
    (∃ v, newRowid db = some v ∧ db.rows.any (fun r => r.longURL = u) = true ∧
      (execInsertOrIgnore db u fault).1 = { db with seq := v }) ∨
    (∃ v, newRowid db = some v ∧ db.rows.any (fun r => r.longURL = u) = false ∧
      (execInsertOrIgnore db u fault).1 = { rows := db.rows ++ [⟨v, u⟩], seq := v }) := by
  unfold execInsertOrIgnore at h ⊢
  cases fault with
  | some e => simp at h
  | none =>
    cases hv : newRowid db with
    | none => simp [hv] at h
    | some v =>
      by_cases ha : db.rows.any (fun r => r.longURL = u) = true
      · left; exact ⟨v, rfl, ha, by simp [ha]⟩
      · simp only [Bool.not_eq_true] at ha
        right; exact ⟨v, rfl, ha, by simp [ha]⟩

theorem any_longURL_iff (rows : List Row) (u : String) :
    rows.any (fun r => r.longURL = u) = true ↔ u ∈ rows.map Row.longURL := by
  rw [List.any_eq_true, List.mem_map]
  constructor
  · rintro ⟨r, hr, h⟩
    exact ⟨r, hr, of_decide_eq_true h⟩
  · rintro ⟨r, hr, h⟩
    exact ⟨r, hr, decide_eq_true h⟩

theorem execInsertOrIgnore_valid (db : DB) (u : String) (fault : Option Error)
    (h : db.Valid) : (execInsertOrIgnore db u fault).1.Valid := by
  rcases execInsertOrIgnore_cases db u fault with e | ⟨v, hv, _, e⟩ | ⟨v, hv, ha, e⟩
  · rw [e]; exact h
  · rw [e]
    obtain ⟨h1, h2, h3, h4, h5⟩ := h
    have hv' := newRowid_some hv
    refine ⟨h1, h2, ?_, ?_, hv'.2⟩
    · intro r hr; have := h3 r hr; simp only; omega
    · simp only; omega
  · rw [e]
    obtain ⟨h1, h2, h3, h4, h5⟩ := h
    have hv' := newRowid_some hv
    have hu : u ∉ db.rows.map Row.longURL := by
      rw [← any_longURL_iff]; simp [ha]
    have hid : v ∉ db.rows.map Row.id := by
      intro hm
      obtain ⟨r, hr, rfl⟩ := List.mem_map.1 hm
      have := h3 r hr; omega
    refine ⟨?_, ?_, ?_, ?_, hv'.2⟩
    · simp only [List.map_append, List.map_cons, List.map_nil]
      rw [List.nodup_append]
      refine ⟨h1, by simp, ?_⟩
      intro a ha1 ha2
      simp only [List.mem_singleton] at ha2
      subst ha2; exact hid ha1
    · simp only [List.map_append, List.map_cons, List.map_nil]
      rw [List.nodup_append]
      refine ⟨h2, by simp, ?_⟩
      intro a ha1 ha2
      simp only [List.mem_singleton] at ha2
      subst ha2; exact hu ha1
    · intro r hr
      simp only [List.mem_append, List.mem_singleton] at hr
      rcases hr with hr | rfl
      · have := h3 r hr; simp only; omega
      · exact le_refl _
    · simp only; omega

theorem execInsertOrIgnore_rows (db : DB) (u : String) (fault : Option Error) :
    ∀ r ∈ db.rows, r ∈ (execInsertOrIgnore db u fault).1.rows := by
  intro r hr
  rcases execInsertOrIgnore_cases db u fault with e | ⟨v, _, _, e⟩ | ⟨v, _, _, e⟩
  · rw [e]; exact hr
  · rw [e]; exact hr
  · rw [e]; exact List.mem_append_left _ hr

theorem AddURL_db (i : SQLiteIndex) (u : String) (f1 f2 : Option Error) :
    (i.AddURL u f1 f2).2.db = (execInsertOrIgnore i.db u f1).1 := by
  unfold SQLiteIndex.AddURL
  rcases h : execInsertOrIgnore i.db u f1 with ⟨db, _ | e⟩
  · simp only
    rcases h2 : queryID db u f2 with ⟨id, _ | e⟩ <;> rfl
  · rfl

theorem LookupID_index (i : SQLiteIndex) (id : Int) (fault : Option Error) :
    (i.LookupID id fault).2 = i := by
  unfold SQLiteIndex.LookupID
  rcases h : queryLongURL i.db id fault with ⟨u, _ | e⟩
  · rfl
  · simp only
    split <;> rfl

theorem after_valid (i : SQLiteIndex) (c : Call) (h : i.db.Valid) : (i.after c).db.Valid := by
  cases c with
  | addURL u f1 f2 =>
    simp only [SQLiteIndex.after, AddURL_db]
    exact execInsertOrIgnore_valid _ _ _ h
  | lookupID id f =>
    simp only [SQLiteIndex.after, LookupID_index]
    exact h

theorem after_rows (i : SQLiteIndex) (c : Call) : ∀ r ∈ i.db.rows, r ∈ (i.after c).db.rows := by
  cases c with
  | addURL u f1 f2 =>
    simp only [SQLiteIndex.after, AddURL_db]
    exact execInsertOrIgnore_rows _ _ _
  | lookupID id f =>
    simp only [SQLiteIndex.after, LookupID_index]
    exact fun r hr => hr

theorem foldl_after_valid (calls : List Call) (i : SQLiteIndex) (h : i.db.Valid) :
    (calls.foldl SQLiteIndex.after i).db.Valid := by
  induction calls generalizing i with
  | nil => exact h
  | cons c cs ih => exact ih _ (after_valid i c h)

theorem run_valid (calls : List Call) : (SQLiteIndex.run calls).db.Valid :=
  foldl_after_valid calls _ (by decide)

theorem filter_longURL_length (rows : List Row) (u : String)
    (h : (rows.map Row.longURL).Nodup) (hu : u ∈ rows.map Row.longURL) :
    (rows.filter (fun r => r.longURL = u)).length = 1 := by
  induction rows with
  | nil => simp at hu
  | cons r rs ih =>
    simp only [List.map_cons, List.nodup_cons] at h
    by_cases hr : r.longURL = u
    · have hnil : rs.filter (fun r => r.longURL = u) = [] := by
        rw [List.filter_eq_nil_iff]
        intro a ha hau
        apply h.1
        rw [hr]
        exact List.mem_map.2 ⟨a, ha, of_decide_eq_true hau⟩
      simp [List.filter_cons, hr, hnil]
    · have hu' : u ∈ rs.map Row.longURL := by
        simp only [List.map_cons, List.mem_cons] at hu
        rcases hu with hu | hu
        · exact absurd hu.symm hr
        · exact hu
      simp [List.filter_cons, hr, ih h.2 hu']

theorem find_id_unique (rows : List Row) (h : (rows.map Row.id).Nodup) (r : Row)
    (hr : r ∈ rows) : rows.find? (fun x => x.id = r.id) = some r := by
  induction rows with
  | nil => simp at hr
  | cons a rs ih =>
    simp only [List.map_cons, List.nodup_cons] at h
    by_cases ha : a.id = r.id
    · have : a = r := by
        rcases List.mem_cons.1 hr with e | hm
        · exact e.symm
        · exact absurd (List.mem_map.2 ⟨r, hm, ha.symm⟩) h.1
      simp [List.find?_cons, this]
    · have hm : r ∈ rs := by
        rcases List.mem_cons.1 hr with e | hm
        · exact absurd (by rw [e]) ha
        · exact hm
      simp [List.find?_cons, ha, ih h.2 hm]

/-- A successful `AddURL` returns the id of the first row holding the URL after the
insert. -/
theorem AddURL_ok {i : SQLiteIndex} {u : String} {f1 f2 : Option Error}
    (h : (i.AddURL u f1 f2).1.2 = none) :
    (execInsertOrIgnore i.db u f1).2 = none ∧
    ∃ r, (execInsertOrIgnore i.db u f1).1.rows.find? (fun r => r.longURL = u) = some r ∧
      (i.AddURL u f1 f2).1.1 = r.id := by
  unfold SQLiteIndex.AddURL at h ⊢
  rcases he : execInsertOrIgnore i.db u f1 with ⟨db, _ | e⟩
  · rw [he] at h
    simp only at h ⊢
    unfold queryID at h ⊢
    cases f2 with
    | some e => simp at h
    | none =>
      simp only at h ⊢
      cases hf : db.rows.find? (fun r => r.longURL = u) with
      | none => simp [hf] at h
      | some r => exact ⟨trivial, r, rfl, rfl⟩
  · rw [he] at h
    simp at h

/-- Adding a URL that already has a row: the insert is ignored, the rows are left as they
are, and the id of that row is returned. -/
theorem AddURL_existing {i : SQLiteIndex} {u : String} {r : Row}
    (hf : i.db.rows.find? (fun r => r.longURL = u) = some r)
    (h : (i.AddURL u none none).1.2 = none) :
    (i.AddURL u none none).1.1 = r.id ∧ (i.AddURL u none none).2.db.rows = i.db.rows := by
  obtain ⟨he, r', hf', hid⟩ := AddURL_ok h
  have hp := List.find?_some hf
  have hmem : u ∈ i.db.rows.map Row.longURL :=
    List.mem_map.2 ⟨r, List.mem_of_find?_eq_some hf, of_decide_eq_true hp⟩
  have hany := (any_longURL_iff _ _).2 hmem
  have hrows : (execInsertOrIgnore i.db u none).1.rows = i.db.rows := by
    rcases execInsertOrIgnore_ok he with ⟨v, _, _, e⟩ | ⟨v, _, hn, _⟩
    · rw [e]
    · rw [hany] at hn; exact absurd hn (by simp)
  rw [hrows, hf] at hf'
  simp only [Option.some.injEq] at hf'
  exact ⟨by rw [hid, hf'], by rw [AddURL_db, hrows]⟩

/-- After a successful `AddURL` the table holds a row with the URL and the returned id. -/
theorem AddURL_row {i : SQLiteIndex} {u : String} {f1 f2 : Option Error}
    (h : (i.AddURL u f1 f2).1.2 = none) :
    ∃ r, (i.AddURL u f1 f2).2.db.rows.find? (fun r => r.longURL = u) = some r ∧
      r ∈ (i.AddURL u f1 f2).2.db.rows ∧ r.longURL = u ∧ r.id = (i.AddURL u f1 f2).1.1 := by
  obtain ⟨_, r, hf, hid⟩ := AddURL_ok h
  rw [← AddURL_db i u f1 f2] at hf
  have hp := List.find?_some hf
  exact ⟨r, hf, List.mem_of_find?_eq_some hf, of_decide_eq_true hp, hid.symm⟩

/-- Looking up the id of a row of a table whose ids are distinct returns that row's URL. -/
theorem LookupID_of_mem (i : SQLiteIndex) (hv : (i.db.rows.map Row.id).Nodup) (r : Row)
    (hr : r ∈ i.db.rows) : i.LookupID r.id none = ((r.longURL, none), i) := by
  have hf := find_id_unique i.db.rows hv r hr
  simp [SQLiteIndex.LookupID, queryLongURL, hf]

/-! ## Index: the claims -/

/-- C7. For every store state and every id, absent a storage failure, `LookupID id` fails
with `ErrNotFound` (returning the empty string) exactly when the store has no row with that
id, and otherwise returns that row's longURL with a nil error; in both cases the store is
left unchanged. -/
theorem LookupID_spec (i : SQLiteIndex) (id : Int) (hv : i.db.Valid) :
    ((i.LookupID id none).1 = ("", some .notFound) ↔ ∀ r ∈ i.db.rows, r.id ≠ id) ∧
    (∀ r ∈ i.db.rows, r.id = id → (i.LookupID id none).1 = (r.longURL, none)) ∧
    (i.LookupID id none).2 = i := by
  have hfound : ∀ r ∈ i.db.rows, r.id = id → (i.LookupID id none).1 = (r.longURL, none) := by
    intro r hr hid
    rw [← hid, LookupID_of_mem i hv.1 r hr]
  refine ⟨?_, hfound, LookupID_index i id none⟩
  constructor
  · intro h r hr hid
    rw [hfound r hr hid] at h
    simp at h
  · intro h
    have hf : i.db.rows.find? (fun r => r.id = id) = none := by
      rw [List.find?_eq_none]
      intro r hr
      simpa using h r hr
    simp [SQLiteIndex.LookupID, queryLongURL, hf]

/-- Witness for C7: a table with the rows `(1, "https://basic.com/")` and
`(2, "https://basic-2.com/")`, looked up at id `2`. -/
theorem LookupID_spec_witness :
    (SQLiteIndex.LookupID ⟨⟨[⟨1, "https://basic.com/"⟩, ⟨2, "https://basic-2.com/"⟩], 2⟩⟩ 2 none).1
      = ("https://basic-2.com/", none) :=
  (LookupID_spec ⟨⟨[⟨1, "https://basic.com/"⟩, ⟨2, "https://basic-2.com/"⟩], 2⟩⟩ 2
    (by decide)).2.1 ⟨2, "https://basic-2.com/"⟩ (by decide) rfl

/-- What does hold of two successive `AddURL u` calls without a storage failure: they
return the same ID, the second call leaves the rows of `links` as they are, and the table
then holds exactly one row whose longURL is `u`. -/
theorem AddURL_twice (i : SQLiteIndex) (u : String) (hv : i.db.Valid)
    (h1 : (i.AddURL u none none).1.2 = none)
    (h2 : ((i.AddURL u none none).2.AddURL u none none).1.2 = none) :
    ((i.AddURL u none none).2.AddURL u none none).1.1 = (i.AddURL u none none).1.1 ∧
    ((i.AddURL u none none).2.AddURL u none none).2.db.rows = (i.AddURL u none none).2.db.rows ∧
    (((i.AddURL u none none).2.AddURL u none none).2.db.rows.filter
      (fun r => r.longURL = u)).length = 1 := by
  obtain ⟨r1, hf1, hmem1, hu1, hid1⟩ := AddURL_row h1
  have hv1 : (i.AddURL u none none).2.db.Valid := by
    rw [AddURL_db]; exact execInsertOrIgnore_valid _ _ _ hv
  obtain ⟨hid2, hrows⟩ := AddURL_existing hf1 h2
  refine ⟨by rw [hid2, hid1], hrows, ?_⟩
  rw [hrows]
  exact filter_longURL_length _ _ hv1.2.1 (List.mem_map.2 ⟨r1, hmem1, hu1⟩)

/-- C2, at the failing input.  On the table that holds `https://basic.com/` and
`https://basic-2.com/`, two successive calls `AddURL "https://ids.com/"` without a storage
failure both return 3, and the rows after the second call are those after the first; but
the second call does not leave the store unchanged: it consumes the rowid 4, so that the
next new URL, `https://slash.com/`, gets the ID 5, where `TestServer` expects 4 for it. -/
theorem AddURL_second_call_consumes_id :
    (SQLiteIndex.AddURL ⟨⟨[⟨1, "https://basic.com/"⟩, ⟨2, "https://basic-2.com/"⟩], 2⟩⟩
      "https://ids.com/" none none)
      = ((3, none), ⟨⟨[⟨1, "https://basic.com/"⟩, ⟨2, "https://basic-2.com/"⟩,
          ⟨3, "https://ids.com/"⟩], 3⟩⟩) ∧
    (SQLiteIndex.AddURL ⟨⟨[⟨1, "https://basic.com/"⟩, ⟨2, "https://basic-2.com/"⟩,
          ⟨3, "https://ids.com/"⟩], 3⟩⟩ "https://ids.com/" none none)
      = ((3, none), ⟨⟨[⟨1, "https://basic.com/"⟩, ⟨2, "https://basic-2.com/"⟩,
          ⟨3, "https://ids.com/"⟩], 4⟩⟩) ∧
    (SQLiteIndex.AddURL ⟨⟨[⟨1, "https://basic.com/"⟩, ⟨2, "https://basic-2.com/"⟩,
          ⟨3, "https://ids.com/"⟩], 4⟩⟩ "https://slash.com/" none none).1 = (5, none) ∧
    (SQLiteIndex.AddURL ⟨⟨[⟨1, "https://basic.com/"⟩, ⟨2, "https://basic-2.com/"⟩,
          ⟨3, "https://ids.com/"⟩], 3⟩⟩ "https://slash.com/" none none).1 = (4, none) := by
  decide

/-- C3. In every store state reachable from the empty `links` table by any sequence of
`AddURL` and `LookupID` calls (whatever their storage outcomes), no two rows share an id
and no two rows share a longURL, so that two rows have the same id exactly when they have
the same longURL; and every row present before a call is present, with the same id and
longURL, after it. -/
theorem run_invariant (calls : List Call) (c : Call) :
    ((SQLiteIndex.run calls).db.rows.map Row.id).Nodup ∧
    ((SQLiteIndex.run calls).db.rows.map Row.longURL).Nodup ∧
    (∀ r₁ ∈ (SQLiteIndex.run calls).db.rows, ∀ r₂ ∈ (SQLiteIndex.run calls).db.rows,
      (r₁.id = r₂.id ↔ r₁.longURL = r₂.longURL)) ∧
    (∀ r ∈ (SQLiteIndex.run calls).db.rows, r ∈ ((SQLiteIndex.run calls).after c).db.rows) := by
  have hv := run_valid calls
  refine ⟨hv.1, hv.2.1, ?_, after_rows _ c⟩
  intro r₁ h₁ r₂ h₂
  constructor
  · intro h
    rw [List.inj_on_of_nodup_map hv.1 h₁ h₂ h]
  · intro h
    rw [List.inj_on_of_nodup_map hv.2.1 h₁ h₂ h]

/-! ## net/url: lemmas -/

namespace url

theorem cut_append_of_not_mem (p t : List Char) (sep : Char) (h : sep ∉ p) :
    (cut (p ++ t) sep).1 = p ++ (cut t sep).1 := by
  induction p with
  | nil => rfl
  | cons c p ih =>
    have hc : c ≠ sep := fun e => h (by simp [e])
    have hp : sep ∉ p := fun e => h (by simp [e])
    simp [cut, hc, ih hp]

theorem getSchemeLoop_alpha (p t seen raw : List Char) (hp : ∀ c ∈ p, isAlpha c = true)
    (hne : seen ≠ [] ∨ p ≠ []) :
    getSchemeLoop (p ++ ':' :: t) seen raw = .ok (seen.reverse ++ p, t) := by
  induction p generalizing seen with
  | nil =>
    have hs : seen ≠ [] := by
      rcases hne with h | h
      · exact h
      · exact absurd rfl h
    have h1 : isAlpha ':' = false := by decide
    have h2 : isDigit ':' = false := by decide
    simp [getSchemeLoop, h1, h2, hs]
  | cons c p ih =>
    have hc := hp c (by simp)
    have := ih (c :: seen) (fun d hd => hp d (by simp [hd])) (Or.inl (by simp))
    simp [getSchemeLoop, hc, this]

theorem setPath_scheme {u v : URL} {p : List Char} (h : setPath u p = .ok v) :
    v.Scheme = u.Scheme := by
  unfold setPath at h
  split at h
  · exact absurd h (by simp)
  · split at h <;> · simp only [Except.ok.injEq] at h; rw [← h]

theorem setFragment_scheme {u v : URL} {f : List Char} (h : setFragment u f = .ok v) :
    v.Scheme = u.Scheme := by
  unfold setFragment at h
  split at h
  · exact absurd h (by simp)
  · split at h <;> · simp only [Except.ok.injEq] at h; rw [← h]

theorem parseRest_scheme {scheme rest : List Char} {u : URL}
    (h : parseRest scheme rest = .ok u) : u.Scheme = ⟨scheme.map Char.toLower⟩ := by
  unfold parseRest at h
  simp only at h
  repeat' (split at h)
  all_goals first
    | (rw [setPath_scheme h])
    | (cases h; rfl)
    | (cases h)

/-- A string that begins with letters followed by a colon parses, if it parses at all, to
a URL whose scheme is those letters in lowercase. -/
theorem Parse_scheme (p t : List Char) (u : URL) (hp : ∀ c ∈ p, isAlpha c = true)
    (hne : p ≠ []) (h : Parse ⟨p ++ ':' :: t⟩ = .ok u) :
    u.Scheme = ⟨p.map Char.toLower⟩ := by
  have hsharp : '#' ∉ p := fun hm => by
    have := hp _ hm
    revert this; decide
  unfold Parse at h
  simp only at h
  rw [cut_append_of_not_mem _ _ _ hsharp] at h
  have hcut : (cut (':' :: t) '#').1 = ':' :: (cut t '#').1 := by
    simp [cut]
  rw [hcut] at h
  have hparse : ∀ v, parse (p ++ ':' :: (cut t '#').1) = .ok v →
      v.Scheme = ⟨p.map Char.toLower⟩ := by
    intro v hv
    unfold parse at hv
    split at hv
    · exact absurd hv (by simp)
    · split at hv
      · rename_i hstar
        cases p with
        | nil => exact absurd rfl hne
        | cons a p => cases p <;> simp at hstar
      · have hg : getScheme (p ++ ':' :: (cut t '#').1) = .ok (p, (cut t '#').1) := by
          unfold getScheme
          rw [getSchemeLoop_alpha p _ [] _ hp (Or.inr hne)]
          simp
        rw [hg] at hv
        exact parseRest_scheme hv
  split at h
  · exact absurd h (by simp)
  · rename_i v hv
    split at h
    · simp only [Except.ok.injEq] at h
      rw [← h]; exact hparse v hv
    · rw [setFragment_scheme h]; exact hparse v hv

end url

theorem URL.String_scheme (u : URL) (h : u.Scheme ≠ "") :
    ∃ tail, u.String.data = u.Scheme.data ++ ':' :: tail := by
  unfold URL.String
  simp only [h, ne_eq, not_false_eq_true, if_true]
  split_ifs <;> exact ⟨_, by simp [List.append_assoc]; rfl⟩

theorem normalize_scheme (u : URL) : (normalize u).Scheme = u.Scheme := by
  unfold normalize; split <;> rfl

/-! ## net/http: lemmas -/

namespace http

theorem hexEscapeNonASCII_ascii (l : List Char) (h : ∀ c ∈ l, c.toNat < 0x80) :
    hexEscapeNonASCII l = l := by
  induction l with
  | nil => rfl
  | cons c cs ih =>
    have hc := h c (by simp)
    have : ¬ c.toNat ≥ 0x80 := by omega
    simp [hexEscapeNonASCII, this, ih (fun d hd => h d (by simp [hd]))]

theorem redirectTarget_of_not_relative (r : Request) (target : String)
    (h : ¬ isRelativeReference target) : redirectTarget r target.data = target.data := by
  unfold redirectTarget
  split
  · rfl
  · rename_i u hu
    split
    · rename_i hrel
      exact absurd ⟨u, hu, hrel.1, hrel.2⟩ h
    · rfl

theorem WriteHeader_status (w : ResponseWriter) (code : Nat) :
    (w.WriteHeader code).status = some (w.status.getD code) := by
  unfold ResponseWriter.WriteHeader
  cases h : w.status <;> simp [h]

theorem Write_status (w : ResponseWriter) (data : Written) :
    (w.Write data).status = some (w.status.getD 200) := by
  simp [ResponseWriter.Write, WriteHeader_status]

theorem Write_sent (w : ResponseWriter) (data : Written) (s : Nat) (h : w.status = some s) :
    (w.Write data).sent = w.sent := by
  simp [ResponseWriter.Write, ResponseWriter.WriteHeader, h]

theorem Header_Get_Location (h : Header) (v ct : String) :
    Header.Get (Header.Set h "Location" v) "Location" = v ∧
    Header.Get (Header.Set (Header.Set h "Location" v) "Content-Type" ct) "Location" = v := by
  have hne : ¬ ("Content-Type" = "Location") := by decide
  have hne' : ¬ ("Location" = "Content-Type") := by decide
  constructor
  · simp [Header.Get, Header.Set]
  · simp [Header.Get, Header.Set, List.filter_cons, hne, hne']

/-- What `http.Redirect` sends on a response whose header has not been written. -/
theorem Redirect_sent (w : ResponseWriter) (r : Request) (target : String) (code : Nat)
    (hw : w.status = none) :
    (Redirect w r target code).status = some code ∧
    Header.Get (Redirect w r target code).sent "Location"
      = ⟨hexEscapeNonASCII (redirectTarget r target.data)⟩ := by
  unfold Redirect
  simp only
  have hL := Header_Get_Location w.header ⟨hexEscapeNonASCII (redirectTarget r target.data)⟩
    "text/html; charset=utf-8"
  split_ifs <;>
    simp [ResponseWriter.Write, ResponseWriter.WriteHeader, hw, hL.1, hL.2]

theorem Redirect_status (w : ResponseWriter) (r : Request) (target : String) (code : Nat) :
    (Redirect w r target code).status = some (w.status.getD code) := by
  unfold Redirect
  simp only
  split_ifs <;> cases h : w.status <;>
    simp [ResponseWriter.Write, ResponseWriter.WriteHeader, h]

end http

theorem writeError_status (w : http.ResponseWriter) (status : Nat) (format : String)
    (args : List http.Arg) :
    (writeError w status format args).status = some (w.status.getD status) := by
  simp [writeError, http.Write_status, http.WriteHeader_status]

theorem writeShortLink_status (w : http.ResponseWriter) (r : http.Request) (id : Int) :
    (writeShortLink w r id).status = some (w.status.getD 200) := by
  simp [writeShortLink, http.Write_status]

/-! ## Handlers: the claims -/

open http in
/-- C9, refuted as stated: for an index whose row 1 holds `http://a.b/?é` (the `é` as its
two UTF-8 bytes), `resolve` of the code `1` answers 302, but the Location header it sends
is `http://a.b/?%c3%a9`, not the stored long URL: `http.Redirect` passes the target
through `hexEscapeNonASCII`. -/
theorem resolve_location_counterexample :
    (SQLiteIndex.LookupID ⟨⟨[⟨1, "http://a.b/?\xc3\xa9"⟩], 1⟩⟩ (parseID "1").1 none).1
      = ("http://a.b/?\xc3\xa9", none) ∧
    (resolve (sqliteIndex none none none) ⟨⟨[⟨1, "http://a.b/?\xc3\xa9"⟩], 1⟩⟩ {}
      (exampleRequest "/1" "/1") "1").1.status = some 302 ∧
    Header.Get (resolve (sqliteIndex none none none) ⟨⟨[⟨1, "http://a.b/?\xc3\xa9"⟩], 1⟩⟩ {}
      (exampleRequest "/1" "/1") "1").1.sent "Location"
      = "http://a.b/?%c3%a9" ∧
    "http://a.b/?%c3%a9" ≠ "http://a.b/?\xc3\xa9" := by
  decide

open http in
/-- C9, amended.  For every short code, every index and every response whose header has
not been written yet: `resolve` performs the lookup exactly once, with the value `parseID`
returned, also when `parseID` failed; the status of the response (the first status
written) is 500 if `parseID` fails on the code, whatever the lookup returns; otherwise 302
if `LookupID` succeeds, with the Location header set to the target `http.Redirect`
derives from the stored long URL with its non-ASCII bytes percent-escaped, which is the
stored long URL itself whenever that is ASCII-only and is not a reference without scheme
and host; otherwise 404 if `LookupID` fails with `ErrNotFound`; otherwise 500. -/
theorem resolve_spec {σ : Type} (index : Index σ) (st : σ) (w : ResponseWriter) (r : Request)
    (shortID : String) (hw : w.status = none) :
    (resolve index st w r shortID).2 = (index.LookupID st (parseID shortID).1).2 ∧
    ((parseID shortID).2 ≠ none → (resolve index st w r shortID).1.status = some 500) ∧
    ((parseID shortID).2 = none →
      (∀ longURL, (index.LookupID st (parseID shortID).1).1 = (longURL, none) →
        (resolve index st w r shortID).1.status = some 302 ∧
        Header.Get (resolve index st w r shortID).1.sent "Location"
          = ⟨hexEscapeNonASCII (redirectTarget r longURL.data)⟩ ∧
        (isASCII longURL → ¬ isRelativeReference longURL →
          Header.Get (resolve index st w r shortID).1.sent "Location" = longURL)) ∧
      (∀ s e, (index.LookupID st (parseID shortID).1).1 = (s, some e) →
        e.isNotFound = true → (resolve index st w r shortID).1.status = some 404) ∧
      (∀ s e, (index.LookupID st (parseID shortID).1).1 = (s, some e) →
        e.isNotFound = false → (resolve index st w r shortID).1.status = some 500)) := by
  rcases hl : index.LookupID st (parseID shortID).1 with ⟨⟨s, e⟩, st'⟩
  refine ⟨?_, ?_, ?_⟩
  · unfold resolve
    rw [hl]
    cases e with
    | none => rfl
    | some e => simp only; split <;> rfl
  · intro hp
    obtain ⟨pe, hpe⟩ := Option.ne_none_iff_exists'.1 hp
    unfold resolve
    rw [hl, hpe]
    cases e with
    | none => simp [Redirect_status, writeError_status, hw, StatusInternalServerError]
    | some e =>
      simp only
      split <;> simp [writeError_status, hw, StatusInternalServerError]
  · intro hp
    refine ⟨?_, ?_, ?_⟩
    · intro longURL hlu
      simp only [Prod.mk.injEq] at hlu
      obtain ⟨rfl, rfl⟩ := hlu
      have hres : (resolve index st w r shortID).1 = Redirect w r s StatusFound := by
        unfold resolve
        rw [hl, hp]
      rw [hres]
      have hs := Redirect_sent w r s StatusFound hw
      refine ⟨hs.1, hs.2, ?_⟩
      intro hascii hrel
      rw [hs.2, redirectTarget_of_not_relative r s hrel, hexEscapeNonASCII_ascii _ hascii]
    · intro s' e' hlu hnf
      simp only [Prod.mk.injEq] at hlu
      obtain ⟨rfl, rfl⟩ := hlu
      unfold resolve
      rw [hl, hp]
      simp [hnf, writeError_status, hw, StatusNotFound]
    · intro s' e' hlu hnf
      simp only [Prod.mk.injEq] at hlu
      obtain ⟨rfl, rfl⟩ := hlu
      unfold resolve
      rw [hl, hp]
      simp [hnf, writeError_status, hw, StatusInternalServerError]

open http in
/-- Witness for C9: the code `!` does not parse; the response is 500 although the lookup,
made with the id `0` that `parseID` returned, fails with `ErrNotFound`. -/
theorem resolve_spec_witness :
    parseID "!" = (0, some .numSyntax) ∧
    (resolve (sqliteIndex none none none) ⟨⟨[⟨1, "https://basic.com/"⟩], 1⟩⟩ {}
      (exampleRequest "/!" "/!") "!").1.status = some 500 :=
  ⟨by decide,
   (resolve_spec (sqliteIndex none none none) ⟨⟨[⟨1, "https://basic.com/"⟩], 1⟩⟩ {}
      (exampleRequest "/!" "/!") "!" rfl).2.1 (by decide)⟩

open http in
/-- C8, refuted as stated: the URL to shorten of the request path `/http:///x` parses with
an empty host, and yet `shorten` answers 200 and calls `AddURL`, which inserts the row
`(1, "http:///x")` into the empty table. -/
theorem shorten_empty_host_counterexample :
    (url.Parse (urlToShorten (exampleRequest "/http:///x" "/http:///x"))).toOption.map URL.Host = some "" ∧
    (shorten (sqliteIndex none none none) ⟨DB.empty⟩ {}
      (exampleRequest "/http:///x" "/http:///x")).1.status
      = some 200 ∧
    (shorten (sqliteIndex none none none) ⟨DB.empty⟩ {}
      (exampleRequest "/http:///x" "/http:///x")).2.db.rows
      = [⟨1, "http:///x"⟩] := by
  decide

open http in
/-- C8, amended.  For every shorten request whose URL to shorten `url.Parse` rejects,
`shorten` responds with status 400 and does not call `AddURL` on the index (the state
behind the index is the one before the request).  For every URL to shorten that
`url.Parse` accepts, with or without a host, `shorten` calls `AddURL` once, with the
normalized URL, and responds 200 if that call succeeds and 500 if it fails. -/
theorem shorten_spec {σ : Type} (index : Index σ) (st : σ) (w : ResponseWriter) (r : Request)
    (hw : w.status = none) :
    (∀ e, url.Parse (urlToShorten r) = .error e →
      (shorten index st w r).1.status = some 400 ∧ (shorten index st w r).2 = st) ∧
    (∀ v, url.Parse (urlToShorten r) = .ok v →
      (shorten index st w r).2 = (index.AddURL st (normalize v).String).2 ∧
      (shorten index st w r).1.status =
        some (if (index.AddURL st (normalize v).String).1.2 = none then 200 else 500)) := by
  constructor
  · intro e he
    unfold urlToShorten at he
    unfold shorten
    simp only [he]
    simp [writeError_status, hw, StatusBadRequest]
  · intro v hv
    unfold urlToShorten at hv
    unfold shorten
    simp only [hv]
    rcases ha : index.AddURL st (normalize v).String with ⟨⟨id, e⟩, st'⟩
    cases e with
    | none => simp [writeShortLink_status, hw]
    | some e => simp [writeError_status, hw, StatusInternalServerError]

open http in
/-- Witness for C8: the port of `http://a.b:x/` is not a number, `url.Parse` rejects it,
and the response is 400 with the table untouched. -/
theorem shorten_spec_witness :
    (url.Parse (urlToShorten (exampleRequest "/http://a.b:x/" "/http://a.b:x/"))) = .error (.url "invalid port after host") ∧
    (shorten (sqliteIndex none none none) ⟨DB.empty⟩ {}
      (exampleRequest "/http://a.b:x/" "/http://a.b:x/")).1.status
      = some 400 ∧
    (shorten (sqliteIndex none none none) ⟨DB.empty⟩ {}
      (exampleRequest "/http://a.b:x/" "/http://a.b:x/")).2
      = ⟨DB.empty⟩ :=
  ⟨by decide,
   (shorten_spec (sqliteIndex none none none) ⟨DB.empty⟩ {}
      (exampleRequest "/http://a.b:x/" "/http://a.b:x/") rfl).1
      (.url "invalid port after host") (by decide)⟩

open http in
/-- C5. For every parsed URL `u`, `normalize u` has path `/` when `u`'s path is empty and
`u`'s own path otherwise, leaves every other component of `u` unchanged, and
`normalize (normalize u) = normalize u`; consequently a URL with no path and the same URL
with path `/` serialize to the same string and, absent a storage failure, are shortened to
the same ID. -/
theorem normalize_spec (u : URL) :
    (normalize u).Path = (if u.Path = "" then "/" else u.Path) ∧
    normalize u = { u with Path := (normalize u).Path } ∧
    normalize (normalize u) = normalize u ∧
    (u.Path = "" →
      (normalize u).String = (normalize { u with Path := "/" }).String ∧
      ∀ (i : SQLiteIndex) (w : ResponseWriter) (r₁ r₂ : Request),
        url.Parse (urlToShorten r₁) = .ok u →
        url.Parse (urlToShorten r₂) = .ok { u with Path := "/" } →
        (i.AddURL (normalize u).String none none).1.2 = none →
        ((i.AddURL (normalize u).String none none).2.AddURL
          (normalize { u with Path := "/" }).String none none).1.2 = none →
        ∃ id, (shorten (sqliteIndex none none none) i w r₁).1 = writeShortLink w r₁ id ∧
          (shorten (sqliteIndex none none none)
            (shorten (sqliteIndex none none none) i w r₁).2 w r₂).1 = writeShortLink w r₂ id) := by
  refine ⟨?_, ?_, ?_, ?_⟩
  · unfold normalize; split <;> simp [*]
  · unfold normalize; split <;> rfl
  · unfold normalize
    by_cases h : u.Path = ""
    · simp [h]
    · simp [h]
  · intro hp
    have hn : normalize { u with Path := "/" } = normalize u := by
      simp [normalize, hp]
    rw [hn]
    refine ⟨rfl, ?_⟩
    intro i w r₁ r₂ h₁ h₂ ha₁ ha₂
    obtain ⟨row, hf, _, _, hid⟩ := AddURL_row ha₁
    obtain ⟨hid₂, _⟩ := AddURL_existing hf ha₂
    have e₁ : shorten (sqliteIndex none none none) i w r₁
        = (writeShortLink w r₁ (i.AddURL (normalize u).String none none).1.1,
            (i.AddURL (normalize u).String none none).2) := by
      unfold urlToShorten at h₁
      unfold shorten
      simp only [h₁, sqliteIndex]
      rcases hr : i.AddURL (normalize u).String none none with ⟨⟨id, e⟩, st⟩
      rw [hr] at ha₁
      simp only at ha₁
      subst ha₁
      rfl
    refine ⟨(i.AddURL (normalize u).String none none).1.1, by rw [e₁], ?_⟩
    rw [e₁]
    simp only
    generalize (i.AddURL (normalize u).String none none).2 = i₁ at *
    unfold urlToShorten at h₂
    unfold shorten
    simp only [h₂, sqliteIndex, hn]
    rcases hr : i₁.AddURL (normalize u).String none none with ⟨⟨id, e⟩, st⟩
    rw [hr] at ha₂ hid₂
    simp only at ha₂ hid₂
    subst ha₂
    simp only
    rw [hid₂, hid]

open http in
/-- Witness for C5: `http://example.com` and `http://example.com/` both normalize to
`http://example.com/` and, shortened one after the other on the empty table, both get the
code of the same ID. -/
theorem normalize_spec_witness :
    url.Parse "http://example.com" = .ok { Scheme := "http", Host := "example.com" } ∧
    url.Parse "http://example.com/"
      = .ok { Scheme := "http", Host := "example.com", Path := "/" } ∧
    (normalize { Scheme := "http", Host := "example.com" }).String = "http://example.com/" ∧
    (normalize { Scheme := "http", Host := "example.com", Path := "/" }).String
      = "http://example.com/" ∧
    ∃ id, (shorten (sqliteIndex none none none) ⟨DB.empty⟩ {}
        (exampleRequest "/http://example.com" "/http://example.com")).1
        = writeShortLink {} (exampleRequest "/http://example.com" "/http://example.com") id ∧
      (shorten (sqliteIndex none none none)
        (shorten (sqliteIndex none none none) ⟨DB.empty⟩ {}
          (exampleRequest "/http://example.com" "/http://example.com")).2 {}
        (exampleRequest "/http://example.com/" "/http://example.com/")).1
        = writeShortLink {} (exampleRequest "/http://example.com/" "/http://example.com/") id :=
  ⟨by decide, by decide, by decide, by decide,
   ((normalize_spec { Scheme := "http", Host := "example.com" }).2.2.2 rfl).2 ⟨DB.empty⟩ {}
      (exampleRequest "/http://example.com" "/http://example.com")
      (exampleRequest "/http://example.com/" "/http://example.com/")
      (by decide) (by decide) (by decide) (by decide)⟩

/-! ## End to end: lemmas -/

/-- The invariant of the table the end-to-end property rests on: the key constraints, and
every id is at least 1. -/
theorem execInsertOrIgnore_pos (db : DB) (u : String) (fault : Option Error)
    (hv : db.Valid) (h : ∀ r ∈ db.rows, 1 ≤ r.id) :
    ∀ r ∈ (execInsertOrIgnore db u fault).1.rows, 1 ≤ r.id := by
  rcases execInsertOrIgnore_cases db u fault with e | ⟨v, _, _, e⟩ | ⟨v, hv', _, e⟩
  · rw [e]; exact h
  · rw [e]; exact h
  · rw [e]
    intro r hr
    simp only [List.mem_append, List.mem_singleton] at hr
    rcases hr with hr | rfl
    · exact h r hr
    · have := newRowid_some hv'
      have := hv.2.2.2.1
      simp only; omega

theorem after_pos (i : SQLiteIndex) (c : Call) (hv : i.db.Valid)
    (h : ∀ r ∈ i.db.rows, 1 ≤ r.id) : ∀ r ∈ (i.after c).db.rows, 1 ≤ r.id := by
  cases c with
  | addURL u f1 f2 =>
    simp only [SQLiteIndex.after, AddURL_db]
    exact execInsertOrIgnore_pos _ _ _ hv h
  | lookupID id f =>
    simp only [SQLiteIndex.after, LookupID_index]
    exact h

theorem foldl_after_pos (calls : List Call) (i : SQLiteIndex) (hv : i.db.Valid)
    (h : ∀ r ∈ i.db.rows, 1 ≤ r.id) :
    ∀ r ∈ (calls.foldl SQLiteIndex.after i).db.rows, 1 ≤ r.id := by
  induction calls generalizing i with
  | nil => exact h
  | cons c cs ih => exact ih _ (after_valid i c hv) (after_pos i c hv h)

theorem run_pos (calls : List Call) : ∀ r ∈ (SQLiteIndex.run calls).db.rows, 1 ≤ r.id :=
  foldl_after_pos calls _ (by decide) (by simp [DB.empty])

open http in
/-- A `shorten` request either leaves the index alone or makes one `AddURL` call. -/
theorem shorten_state (f1 f2 f3 : Option Error) (i : SQLiteIndex) (w : ResponseWriter)
    (r : Request) :
    (shorten (sqliteIndex f1 f2 f3) i w r).2 = i ∨
    ∃ u, (shorten (sqliteIndex f1 f2 f3) i w r).2 = i.after (.addURL u f1 f2) := by
  unfold shorten
  simp only
  split
  · left; rfl
  · rename_i v hv
    right
    refine ⟨(normalize v).String, ?_⟩
    simp only [sqliteIndex, SQLiteIndex.after]
    rcases hr : i.AddURL (normalize v).String f1 f2 with ⟨⟨id, e⟩, st⟩
    cases e <;> rfl

theorem shortenAll_inv (further : List (http.Request × Option Error × Option Error))
    (i : SQLiteIndex) (hv : i.db.Valid) (hp : ∀ r ∈ i.db.rows, 1 ≤ r.id) :
    (shortenAll i further).db.Valid ∧ (∀ r ∈ (shortenAll i further).db.rows, 1 ≤ r.id) ∧
    (∀ r ∈ i.db.rows, r ∈ (shortenAll i further).db.rows) := by
  induction further generalizing i with
  | nil => exact ⟨hv, hp, fun r hr => hr⟩
  | cons q qs ih =>
    unfold shortenAll
    rcases shorten_state q.2.1 q.2.2 none i {} q.1 with e | ⟨u, e⟩
    · rw [e]; exact ih i hv hp
    · rw [e]
      have := ih (i.after (.addURL u q.2.1 q.2.2)) (after_valid i _ hv) (after_pos i _ hv hp)
      exact ⟨this.1, this.2.1, fun r hr => this.2.2 r (after_rows i _ r hr)⟩

theorem routedToShorten_scheme (r : http.Request) (v : URL) (hr : routedToShorten r)
    (hv : url.Parse (urlToShorten r) = .ok v) : v.Scheme = "http" ∨ v.Scheme = "https" := by
  rcases hr with h | h
  · left
    obtain ⟨t, ht⟩ := List.isPrefixOf_iff_prefix.1 h
    have e : urlToShorten r = ⟨"http".data ++ ':' :: ('/' :: '/' :: t)⟩ := by
      rw [show urlToShorten r = ⟨(urlToShorten r).data⟩ from rfl, ← ht]; rfl
    rw [e] at hv
    rw [url.Parse_scheme _ _ v (by decide) (by decide) hv]; rfl
  · right
    obtain ⟨t, ht⟩ := List.isPrefixOf_iff_prefix.1 h
    have e : urlToShorten r = ⟨"https".data ++ ':' :: ('/' :: '/' :: t)⟩ := by
      rw [show urlToShorten r = ⟨(urlToShorten r).data⟩ from rfl, ← ht]; rfl
    rw [e] at hv
    rw [url.Parse_scheme _ _ v (by decide) (by decide) hv]; rfl

/-- The serialization of a URL with scheme `http` or `https` is not a reference without
scheme and host. -/
theorem String_not_relative (v : URL) (hs : v.Scheme = "http" ∨ v.Scheme = "https") :
    ¬ isRelativeReference (normalize v).String := by
  rintro ⟨u, hu, hsch, _⟩
  have hne : (normalize v).Scheme ≠ "" := by
    rw [normalize_scheme]
    rcases hs with h | h <;> rw [h] <;> decide
  obtain ⟨tail, ht⟩ := URL.String_scheme (normalize v) hne
  rw [normalize_scheme] at ht
  have e : (normalize v).String = ⟨v.Scheme.data ++ ':' :: tail⟩ := by
    rw [← ht]
  rw [e] at hu
  rcases hs with h | h
  · rw [h] at hu
    have := url.Parse_scheme _ _ u (by decide) (by decide) hu
    rw [this] at hsch
    revert hsch; decide
  · rw [h] at hu
    have := url.Parse_scheme _ _ u (by decide) (by decide) hu
    rw [this] at hsch
    revert hsch; decide

open http in
theorem shorten_ok {σ : Type} (index : Index σ) (st : σ) (w : ResponseWriter) (r : Request)
    (v : URL) (hv : url.Parse (urlToShorten r) = .ok v)
    (h : (index.AddURL st (normalize v).String).1.2 = none) :
    shorten index st w r = (writeShortLink w r (index.AddURL st (normalize v).String).1.1,
      (index.AddURL st (normalize v).String).2) := by
  unfold urlToShorten at hv
  unfold shorten
  simp only [hv]
  rcases hr : index.AddURL st (normalize v).String with ⟨⟨id, e⟩, st'⟩
  rw [hr] at h
  simp only at h
  subst h
  rfl

open http in
theorem shorten_err {σ : Type} (index : Index σ) (st : σ) (w : ResponseWriter) (r : Request)
    (v : URL) (e : Error) (hv : url.Parse (urlToShorten r) = .ok v)
    (h : (index.AddURL st (normalize v).String).1.2 = some e) :
    shorten index st w r = (writeError w StatusInternalServerError
      "error adding URL to index: %v" [.err e], (index.AddURL st (normalize v).String).2) := by
  unfold urlToShorten at hv
  unfold shorten
  simp only [hv]
  rcases hr : index.AddURL st (normalize v).String with ⟨⟨id, e'⟩, st'⟩
  rw [hr] at h
  simp only at h
  subst h
  rfl

/-! ## End to end: the claim -/

open http in
/-- C4, refuted as stated: the URL to shorten `http://a.b/?é` (the `é` as its two UTF-8
bytes in the query) is accepted by `shorten`, which stores it as it is and answers with
the code `1`; the resolve request for `1` answers 302 with the Location header
`http://a.b/?%c3%a9`, which is not the normalized form of the URL. -/
theorem shorten_then_resolve_counterexample :
    (url.Parse (urlToShorten (exampleRequest "/http://a.b/?\xc3\xa9" "/http://a.b/"))).toOption.map
      (fun v => (normalize v).String) = some "http://a.b/?\xc3\xa9" ∧
    (shorten (sqliteIndex none none none) ⟨DB.empty⟩ {}
      (exampleRequest "/http://a.b/?\xc3\xa9" "/http://a.b/")).1.body
      = [.fprintf "%s://%s/%s\n" [.str "http", .str "localhost:5656", .str "1"]] ∧
    (resolve (sqliteIndex none none none)
      (shorten (sqliteIndex none none none) ⟨DB.empty⟩ {}
        (exampleRequest "/http://a.b/?\xc3\xa9" "/http://a.b/")).2 {}
      (exampleRequest "/1" "/1") "1").1.status = some 302 ∧
    Header.Get (resolve (sqliteIndex none none none)
      (shorten (sqliteIndex none none none) ⟨DB.empty⟩ {}
        (exampleRequest "/http://a.b/?\xc3\xa9" "/http://a.b/")).2 {}
      (exampleRequest "/1" "/1") "1").1.sent "Location" = "http://a.b/?%c3%a9" ∧
    "http://a.b/?%c3%a9" ≠ "http://a.b/?\xc3\xa9" := by
  decide

open http in
/-- C4, amended.  Take a store reached from the empty table, a shorten request `r` (one
that `SetupRoutes` passes to `shorten`) whose URL to shorten parses to `v`, and suppose
that `shorten` answers with the short URL ending in code `c` (so no storage failure
occurred).  Then a resolve request for `c`, issued after any number of further shorten
requests with whatever storage outcomes, answers (absent a storage failure of the lookup)
302 Found with a Location header equal to the normalized form of the URL in which every
non-ASCII byte is percent-escaped; this is the normalized form itself whenever that is
ASCII-only. -/
theorem shorten_then_resolve (calls : List Call) (r : Request) (v : URL)
    (scheme host c : String) (further : List (Request × Option Error × Option Error))
    (r' : Request) (hrouted : routedToShorten r)
    (hparse : url.Parse (urlToShorten r) = .ok v)
    (hresp : (shorten (sqliteIndex none none none) (SQLiteIndex.run calls) {} r).1.body
      = [.fprintf "%s://%s/%s\n" [.str scheme, .str host, .str c]]) :
    (resolve (sqliteIndex none none none)
      (shortenAll (shorten (sqliteIndex none none none) (SQLiteIndex.run calls) {} r).2 further)
      {} r' c).1.status = some 302 ∧
    Header.Get (resolve (sqliteIndex none none none)
      (shortenAll (shorten (sqliteIndex none none none) (SQLiteIndex.run calls) {} r).2 further)
      {} r' c).1.sent "Location" = ⟨hexEscapeNonASCII (normalize v).String.data⟩ ∧
    (isASCII (normalize v).String →
      Header.Get (resolve (sqliteIndex none none none)
        (shortenAll (shorten (sqliteIndex none none none) (SQLiteIndex.run calls) {} r).2 further)
        {} r' c).1.sent "Location" = (normalize v).String) := by
  -- the shorten request made one successful `AddURL` call
  cases he : ((SQLiteIndex.run calls).AddURL (normalize v).String none none).1.2 with
  | some e =>
    exfalso
    rw [shorten_err _ _ _ _ _ _ hparse he] at hresp
    simp only [writeError, ResponseWriter.Write, ResponseWriter.WriteHeader, List.nil_append,
      List.cons.injEq, Written.fprintf.injEq, and_true] at hresp
    exact absurd hresp.1 (by decide)
  | none =>
    have hsh : shorten (sqliteIndex none none none) (SQLiteIndex.run calls) {} r
        = (writeShortLink {} r
            ((SQLiteIndex.run calls).AddURL (normalize v).String none none).1.1,
          ((SQLiteIndex.run calls).AddURL (normalize v).String none none).2) :=
      shorten_ok (sqliteIndex none none none) (SQLiteIndex.run calls) {} r v hparse he
    rw [hsh] at hresp ⊢
    simp only [writeShortLink, ResponseWriter.Write, ResponseWriter.WriteHeader, List.nil_append,
      List.cons.injEq, Written.fprintf.injEq, Arg.str.injEq, and_true, true_and] at hresp
    have hc : c = formatID ((SQLiteIndex.run calls).AddURL (normalize v).String none none).1.1 :=
      hresp.2.2.symm
    subst hc
    simp only
    obtain ⟨row, _, hmem, hurl, hid⟩ := AddURL_row he
    generalize hi₁' : ((SQLiteIndex.run calls).AddURL (normalize v).String none none).2 = i₁
      at hmem ⊢
    generalize ((SQLiteIndex.run calls).AddURL (normalize v).String none none).1.1 = id at hid ⊢
    have hi₁ : i₁ = (SQLiteIndex.run calls).after (.addURL (normalize v).String none none) := by
      rw [← hi₁']; rfl
    have hv₁ : i₁.db.Valid := by rw [hi₁]; exact after_valid _ _ (run_valid calls)
    have hp₁ : ∀ r ∈ i₁.db.rows, 1 ≤ r.id := by
      rw [hi₁]; exact after_pos _ _ (run_valid calls) (run_pos calls)
    obtain ⟨hv₂, hp₂, hrows⟩ := shortenAll_inv further i₁ hv₁ hp₁
    have hmem₂ := hrows row hmem
    -- the code parses back to the id
    have hpos := hp₂ row hmem₂
    have hle : row.id ≤ 2 ^ 63 - 1 := by
      have h1 := hv₂.2.2.1 row hmem₂
      have h2 := hv₂.2.2.2.2
      unfold maxInt64 at h2
      omega
    have hparseID : parseID (formatID id) = (id, none) := by
      rw [← hid]; exact parseID_formatID_nonneg row.id (by omega) hle
    have hlook := LookupID_of_mem (shortenAll i₁ further) hv₂.1 row hmem₂
    rw [hid, hurl] at hlook
    have hres : (resolve (sqliteIndex none none none) (shortenAll i₁ further) {} r'
        (formatID id)).1 = Redirect {} r' (normalize v).String StatusFound := by
      unfold resolve
      simp only [hparseID, sqliteIndex, hlook]
    rw [hres]
    have hs := Redirect_sent {} r' (normalize v).String StatusFound rfl
    have hrel := String_not_relative v (routedToShorten_scheme r v hrouted hparse)
    rw [redirectTarget_of_not_relative r' _ hrel] at hs
    refine ⟨hs.1, hs.2, ?_⟩
    intro hascii
    rw [hs.2, hexEscapeNonASCII_ascii _ hascii]

open http in
/-- Witness for C4: `https://basic.com` is shortened to the code `1` on the empty table;
after `https://basic-2.com` has been shortened as well, resolving `1` redirects to
`https://basic.com/`. -/
theorem shorten_then_resolve_witness :
    Header.Get (resolve (sqliteIndex none none none)
      (shortenAll (shorten (sqliteIndex none none none) (SQLiteIndex.run []) {}
          (exampleRequest "/https://basic.com" "/https://basic.com")).2
        [(exampleRequest "/https://basic-2.com" "/https://basic-2.com", none, none)])
      {} (exampleRequest "/1" "/1") "1").1.sent "Location" = "https://basic.com/" :=
  (shorten_then_resolve [] (exampleRequest "/https://basic.com" "/https://basic.com")
    { Scheme := "https", Host := "basic.com" } "http" "localhost:5656" "1"
    [(exampleRequest "/https://basic-2.com" "/https://basic-2.com", none, none)]
    (exampleRequest "/1" "/1") (by decide) (by decide) (by decide)).2.2 (by decide)

/-! ## Concurrent calls: lemmas -/

theorem setPhase_same (phases : Nat → Phase) (g : Nat) (p : Phase) :
    setPhase phases g p g = p := by simp [setPhase]

theorem setPhase_ne (phases : Nat → Phase) (g h : Nat) (p : Phase) (hne : h ≠ g) :
    setPhase phases g p h = phases h := by simp [setPhase, hne]

theorem Concurrent.step_other (N : Nat) (u : String) (s : Concurrent) (g h : Nat)
    (fault : Option Error) (hne : h ≠ g) : (s.step N u g fault).phases h = s.phases h := by
  unfold Concurrent.step
  split
  · split
    · split
      · exact setPhase_ne _ _ _ _ hne
      · rfl
    · split <;> exact setPhase_ne _ _ _ _ hne
    · split <;> exact setPhase_ne _ _ _ _ hne
    · exact setPhase_ne _ _ _ _ hne
    · rfl
  · rfl

theorem Concurrent.init_inv (N : Nat) (u : String) (db₀ : DB) (hv : db₀.Valid) :
    Concurrent.Inv N u db₀ (Concurrent.init db₀) where
  valid := hv
  mutex := by intro g; simp [Concurrent.init, Phase.critical]
  bound := by intro g _; rfl
  inserted := by intro g h; simp [Concurrent.init] at h
  result := by intro g id h; simp [Concurrent.init] at h
  created := Or.inl rfl

theorem queryID_ok {db : DB} {u : String} {fault : Option Error}
    (h : (queryID db u fault).2 = none) :
    ∃ r ∈ db.rows, r.longURL = u ∧ r.id = (queryID db u fault).1 := by
  unfold queryID at h ⊢
  cases fault with
  | some e => simp at h
  | none =>
    simp only at h ⊢
    cases hf : db.rows.find? (fun r => r.longURL = u) with
    | none => simp [hf] at h
    | some r =>
      have hp := List.find?_some hf
      exact ⟨r, List.mem_of_find?_eq_some hf, of_decide_eq_true hp, rfl⟩

theorem execInsertOrIgnore_created (db db₀ : DB) (u : String) (fault : Option Error)
    (h : db.rows = db₀.rows ∨ ∃ v, db.rows = db₀.rows ++ [⟨v, u⟩]) :
    (execInsertOrIgnore db u fault).1.rows = db₀.rows ∨
      ∃ v, (execInsertOrIgnore db u fault).1.rows = db₀.rows ++ [⟨v, u⟩] := by
  rcases execInsertOrIgnore_cases db u fault with e | ⟨v, _, _, e⟩ | ⟨v, _, ha, e⟩
  · rw [e]; exact h
  · rw [e]; exact h
  · rw [e]
    rcases h with h | ⟨v₀, h⟩
    · right; exact ⟨v, by rw [h]⟩
    · exfalso
      have : db.rows.any (fun r => r.longURL = u) = true := by
        rw [any_longURL_iff, h]; simp
      rw [this] at ha; exact absurd ha (by simp)

theorem execInsertOrIgnore_mem_of_ok {db : DB} {u : String} {fault : Option Error}
    (h : (execInsertOrIgnore db u fault).2 = none) :
    u ∈ (execInsertOrIgnore db u fault).1.rows.map Row.longURL := by
  rcases execInsertOrIgnore_ok h with ⟨v, _, ha, e⟩ | ⟨v, _, _, e⟩
  · rw [e]; exact (any_longURL_iff _ _).1 ha
  · rw [e]; simp

/-- Every move of a goroutine keeps the invariant. -/
theorem Concurrent.step_inv (N : Nat) (u : String) (db₀ : DB) (s : Concurrent) (g : Nat)
    (fault : Option Error) (h : Concurrent.Inv N u db₀ s) :
    Concurrent.Inv N u db₀ (s.step N u g fault) := by
  by_cases hg : g < N
  swap
  · simp only [Concurrent.step, hg, if_false]; exact h
  have hother : ∀ k, k ≠ g → (s.step N u g fault).phases k = s.phases k :=
    fun k hk => Concurrent.step_other N u s g k fault hk
  have hbound : ∀ k, N ≤ k → k ≠ g := fun k hk e => by omega
  cases hp : s.phases g with
  | start =>
    by_cases hh : s.holder = none
    · have e : s.step N u g fault
          = { s with holder := some g, phases := setPhase s.phases g .locked } := by
        simp only [Concurrent.step, hg, hp, hh, if_true]
      have hself : (s.step N u g fault).phases g = .locked := by rw [e]; exact setPhase_same _ _ _
      refine ⟨by rw [e]; exact h.valid, ?_, ?_, ?_, ?_, by rw [e]; exact h.created⟩
      · intro k
        by_cases hk : k = g
        · subst hk; rw [hself]; rw [e]; simp [Phase.critical]
        · rw [hother k hk, e]
          constructor
          · intro hc; have := (h.mutex k).1 hc; rw [hh] at this; cases this
          · intro hs; simp only [Option.some.injEq] at hs; exact absurd hs.symm hk
      · intro k hk; rw [hother k (hbound k hk)]; exact h.bound k hk
      · intro k hk
        by_cases hkg : k = g
        · subst hkg; rw [hself] at hk; cases hk
        · rw [hother k hkg] at hk; rw [e]; exact h.inserted k hk
      · intro k id hk
        by_cases hkg : k = g
        · subst hkg; rw [hself] at hk; rcases hk with hk | hk <;> cases hk
        · rw [hother k hkg] at hk; rw [e]; exact h.result k id hk
    · have e : s.step N u g fault = s := by
        simp only [Concurrent.step, hg, hp, hh, if_true, if_false]
      rw [e]; exact h
  | locked =>
    have hhold : s.holder = some g := (h.mutex g).1 (by rw [hp]; rfl)
    have hdb : (s.step N u g fault).db = (execInsertOrIgnore s.db u fault).1 := by
      simp only [Concurrent.step, hg, hp, if_true]; split <;> rfl
    have hholder : (s.step N u g fault).holder = s.holder := by
      simp only [Concurrent.step, hg, hp, if_true]; split <;> rfl
    have hmono : ∀ r ∈ s.db.rows, r ∈ (s.step N u g fault).db.rows := by
      rw [hdb]; exact execInsertOrIgnore_rows _ _ _
    have hself : ((execInsertOrIgnore s.db u fault).2 = none ∧
          (s.step N u g fault).phases g = .inserted) ∨
        ∃ err, (s.step N u g fault).phases g = .returning (-1, some err) := by
      simp only [Concurrent.step, hg, hp, if_true]
      cases he : (execInsertOrIgnore s.db u fault).2 with
      | none => left; exact ⟨rfl, setPhase_same _ _ _⟩
      | some err => right; exact ⟨_, setPhase_same _ _ _⟩
    refine ⟨by rw [hdb]; exact execInsertOrIgnore_valid _ _ _ h.valid, ?_, ?_, ?_, ?_,
      by rw [hdb]; exact execInsertOrIgnore_created _ _ _ _ h.created⟩
    · intro k
      by_cases hk : k = g
      · subst hk; rw [hholder, hhold]
        rcases hself with ⟨_, hs⟩ | ⟨err, hs⟩ <;> rw [hs] <;> simp [Phase.critical]
      · rw [hother k hk, hholder]; exact h.mutex k
    · intro k hk; rw [hother k (hbound k hk)]; exact h.bound k hk
    · intro k hk
      by_cases hkg : k = g
      · subst hkg
        rcases hself with ⟨he, _⟩ | ⟨err, hs⟩
        · rw [hdb]; exact execInsertOrIgnore_mem_of_ok he
        · rw [hs] at hk; cases hk
      · rw [hother k hkg] at hk
        obtain ⟨r, hr, hu⟩ := List.mem_map.1 (h.inserted k hk)
        exact List.mem_map.2 ⟨r, hmono r hr, hu⟩
    · intro k id hk
      by_cases hkg : k = g
      · subst hkg
        rcases hself with ⟨_, hs⟩ | ⟨err, hs⟩
        · rw [hs] at hk; rcases hk with hk | hk <;> cases hk
        · rw [hs] at hk; rcases hk with hk | hk <;> cases hk
      · rw [hother k hkg] at hk
        obtain ⟨r, hr, hu⟩ := h.result k id hk
        exact ⟨r, hmono r hr, hu⟩
  | inserted =>
    have hhold : s.holder = some g := (h.mutex g).1 (by rw [hp]; rfl)
    have hdb : (s.step N u g fault).db = s.db := by
      simp only [Concurrent.step, hg, hp, if_true]; split <;> rfl
    have hholder : (s.step N u g fault).holder = s.holder := by
      simp only [Concurrent.step, hg, hp, if_true]; split <;> rfl
    have hself : ((queryID s.db u fault).2 = none ∧
          (s.step N u g fault).phases g = .returning ((queryID s.db u fault).1, none)) ∨
        ∃ err, (s.step N u g fault).phases g = .returning (-1, some err) := by
      simp only [Concurrent.step, hg, hp, if_true]
      cases he : (queryID s.db u fault).2 with
      | none => left; exact ⟨rfl, setPhase_same _ _ _⟩
      | some err => right; exact ⟨_, setPhase_same _ _ _⟩
    refine ⟨by rw [hdb]; exact h.valid, ?_, ?_, ?_, ?_, by rw [hdb]; exact h.created⟩
    · intro k
      by_cases hk : k = g
      · subst hk; rw [hholder, hhold]
        rcases hself with ⟨_, hs⟩ | ⟨err, hs⟩ <;> rw [hs] <;> simp [Phase.critical]
      · rw [hother k hk, hholder]; exact h.mutex k
    · intro k hk; rw [hother k (hbound k hk)]; exact h.bound k hk
    · intro k hk
      by_cases hkg : k = g
      · subst hkg
        rcases hself with ⟨_, hs⟩ | ⟨err, hs⟩ <;> · rw [hs] at hk; cases hk
      · rw [hother k hkg] at hk; rw [hdb]; exact h.inserted k hk
    · intro k id hk
      rw [hdb]
      by_cases hkg : k = g
      · subst hkg
        rcases hself with ⟨he, hs⟩ | ⟨err, hs⟩
        · rw [hs] at hk
          rcases hk with hk | hk
          · simp only [Phase.returning.injEq, Prod.mk.injEq, and_true] at hk
            rw [← hk]; exact queryID_ok he
          · cases hk
        · rw [hs] at hk; rcases hk with hk | hk <;> cases hk
      · rw [hother k hkg] at hk; exact h.result k id hk
  | returning res =>
    have hhold : s.holder = some g := (h.mutex g).1 (by rw [hp]; rfl)
    have e : s.step N u g fault
        = { s with holder := none, phases := setPhase s.phases g (.done res) } := by
      simp only [Concurrent.step, hg, hp, if_true]
    have hself : (s.step N u g fault).phases g = .done res := by
      rw [e]; exact setPhase_same _ _ _
    refine ⟨by rw [e]; exact h.valid, ?_, ?_, ?_, ?_, by rw [e]; exact h.created⟩
    · intro k
      by_cases hk : k = g
      · subst hk; rw [hself, e]; simp [Phase.critical]
      · rw [hother k hk, e]
        constructor
        · intro hc
          have := (h.mutex k).1 hc
          rw [hhold] at this
          simp only [Option.some.injEq] at this
          exact absurd this.symm hk
        · intro hs; cases hs
    · intro k hk; rw [hother k (hbound k hk)]; exact h.bound k hk
    · intro k hk
      by_cases hkg : k = g
      · subst hkg; rw [hself] at hk; cases hk
      · rw [hother k hkg] at hk; rw [e]; exact h.inserted k hk
    · intro k id hk
      by_cases hkg : k = g
      · subst hkg
        rw [hself] at hk
        rw [e]
        rcases hk with hk | hk
        · cases hk
        · simp only [Phase.done.injEq] at hk
          exact h.result k id (Or.inl (by rw [hp, hk]))
      · rw [hother k hkg] at hk; rw [e]; exact h.result k id hk
  | done res =>
    have e : s.step N u g fault = s := by
      simp only [Concurrent.step, hg, hp, if_true]
    rw [e]; exact h

theorem Concurrent.steps_inv (N : Nat) (u : String) (db₀ : DB) (s : Concurrent)
    (schedule : List (Nat × Option Error)) (h : Concurrent.Inv N u db₀ s) :
    Concurrent.Inv N u db₀ (Concurrent.steps N u s schedule) := by
  induction schedule generalizing s with
  | nil => exact h
  | cons q qs ih => exact ih _ (Concurrent.step_inv N u db₀ s q.1 q.2 h)

theorem Concurrent.step_done (N : Nat) (u : String) (s : Concurrent) (g k : Nat)
    (fault : Option Error) (res : Int × Option Error) (h : s.phases k = .done res) :
    (s.step N u g fault).phases k = .done res := by
  by_cases hk : k = g
  · subst hk
    by_cases hg : k < N
    · simp only [Concurrent.step, hg, h, if_true]
    · simp only [Concurrent.step, hg, if_false]; exact h
  · rw [Concurrent.step_other N u s g k fault hk]; exact h

theorem Concurrent.steps_done (N : Nat) (u : String) (s : Concurrent)
    (schedule : List (Nat × Option Error)) (k : Nat) (res : Int × Option Error)
    (h : s.phases k = .done res) : (Concurrent.steps N u s schedule).phases k = .done res := by
  induction schedule generalizing s with
  | nil => exact h
  | cons q qs ih => exact ih _ (Concurrent.step_done N u s q.1 k q.2 res h)

theorem Concurrent.steps_append (N : Nat) (u : String) (s : Concurrent)
    (a b : List (Nat × Option Error)) :
    Concurrent.steps N u s (a ++ b) = Concurrent.steps N u (Concurrent.steps N u s a) b := by
  simp [Concurrent.steps, List.foldl_append]

theorem Phase.rank_eq_zero {p : Phase} (h : p.rank = 0) : ∃ res, p = .done res := by
  cases p <;> simp [Phase.rank] at h
  exact ⟨_, rfl⟩

/-- A goroutine that is not kept out by the mutex gets one statement closer to its
return with every move. -/
theorem Concurrent.step_rank (N : Nat) (u : String) (db₀ : DB) (s : Concurrent) (g : Nat)
    (fault : Option Error) (h : Concurrent.Inv N u db₀ s) (hg : g < N)
    (hh : s.holder = none ∨ s.holder = some g) :
    ((s.step N u g fault).phases g).rank ≤ (s.phases g).rank - 1 ∧
    ((s.step N u g fault).holder = none ∨ (s.step N u g fault).holder = some g) := by
  cases hp : s.phases g with
  | start =>
    have hnone : s.holder = none := by
      rcases hh with hh | hh
      · exact hh
      · have := (h.mutex g).2 hh
        rw [hp] at this; cases this
    simp only [Concurrent.step, hg, hp, hnone, if_true, setPhase_same, Phase.rank]
    exact ⟨by omega, by simp⟩
  | locked =>
    simp only [Concurrent.step, hg, hp, if_true]
    split <;> simp only [setPhase_same, Phase.rank] <;> exact ⟨by omega, hh⟩
  | inserted =>
    simp only [Concurrent.step, hg, hp, if_true]
    split <;> simp only [setPhase_same, Phase.rank] <;> exact ⟨by omega, hh⟩
  | returning res =>
    simp only [Concurrent.step, hg, hp, if_true, setPhase_same, Phase.rank]
    exact ⟨by omega, by simp⟩
  | done res =>
    simp only [Concurrent.step, hg, hp, if_true, Phase.rank]
    exact ⟨by omega, hh⟩

/-- Four moves in a row bring a goroutine that is not kept out by the mutex to its return,
release the mutex and leave the other goroutines where they are. -/
theorem Concurrent.finish_one (N : Nat) (u : String) (db₀ : DB) (s : Concurrent) (g : Nat)
    (h : Concurrent.Inv N u db₀ s) (hg : g < N) (hh : s.holder = none ∨ s.holder = some g) :
    Concurrent.Inv N u db₀ (Concurrent.steps N u s (finishAll [g])) ∧
    (Concurrent.steps N u s (finishAll [g])).holder = none ∧
    (∃ res, (Concurrent.steps N u s (finishAll [g])).phases g = .done res) ∧
    (∀ k, k ≠ g → (Concurrent.steps N u s (finishAll [g])).phases k = s.phases k) := by
  have e : Concurrent.steps N u s (finishAll [g])
      = (((s.step N u g none).step N u g none).step N u g none).step N u g none := rfl
  rw [e]
  have h1 := Concurrent.step_inv N u db₀ s g none h
  have r1 := Concurrent.step_rank N u db₀ s g none h hg hh
  have h2 := Concurrent.step_inv N u db₀ _ g none h1
  have r2 := Concurrent.step_rank N u db₀ _ g none h1 hg r1.2
  have h3 := Concurrent.step_inv N u db₀ _ g none h2
  have r3 := Concurrent.step_rank N u db₀ _ g none h2 hg r2.2
  have h4 := Concurrent.step_inv N u db₀ _ g none h3
  have r4 := Concurrent.step_rank N u db₀ _ g none h3 hg r3.2
  have hr : (s.phases g).rank ≤ 4 := by cases s.phases g <;> simp [Phase.rank]
  obtain ⟨res, hres⟩ := Phase.rank_eq_zero
    (p := ((((s.step N u g none).step N u g none).step N u g none).step N u g none).phases g)
    (by omega)
  refine ⟨h4, ?_, ⟨res, hres⟩, ?_⟩
  · rcases r4.2 with hn | hs
    · exact hn
    · have := (h4.mutex g).2 hs
      rw [hres] at this; cases this
  · intro k hk
    rw [Concurrent.step_other _ _ _ _ _ _ hk, Concurrent.step_other _ _ _ _ _ _ hk,
      Concurrent.step_other _ _ _ _ _ _ hk, Concurrent.step_other _ _ _ _ _ _ hk]

theorem Concurrent.finish_all (N : Nat) (u : String) (db₀ : DB) (gs : List Nat)
    (hgs : ∀ g ∈ gs, g < N) (s : Concurrent) (h : Concurrent.Inv N u db₀ s)
    (hh : s.holder = none) :
    Concurrent.Inv N u db₀ (Concurrent.steps N u s (finishAll gs)) ∧
    (Concurrent.steps N u s (finishAll gs)).holder = none ∧
    (∀ g ∈ gs, ∃ res, (Concurrent.steps N u s (finishAll gs)).phases g = .done res) := by
  induction gs generalizing s with
  | nil => exact ⟨h, hh, by simp⟩
  | cons g gs ih =>
    have e : Concurrent.steps N u s (finishAll (g :: gs))
        = Concurrent.steps N u (Concurrent.steps N u s (finishAll [g])) (finishAll gs) := rfl
    rw [e]
    obtain ⟨h1, hh1, ⟨res, hres⟩, _⟩ :=
      Concurrent.finish_one N u db₀ s g h (hgs g (by simp)) (Or.inl hh)
    obtain ⟨h2, hh2, hd⟩ := ih (fun k hk => hgs k (by simp [hk])) _ h1 hh1
    refine ⟨h2, hh2, ?_⟩
    intro k hk
    rcases List.mem_cons.1 hk with rfl | hk
    · exact ⟨res, Concurrent.steps_done N u _ _ k res hres⟩
    · exact hd k hk

/-- One goroutine running alone does what `AddURL` does. -/
theorem Concurrent.solo (u : String) (db : DB) (f1 f2 : Option Error) :
    (Concurrent.run 1 u db [(0, none), (0, f1), (0, f2), (0, none)]).phases 0
      = .done (SQLiteIndex.AddURL ⟨db⟩ u f1 f2).1 ∧
    (Concurrent.run 1 u db [(0, none), (0, f1), (0, f2), (0, none)]).db
      = (SQLiteIndex.AddURL ⟨db⟩ u f1 f2).2.db ∧
    (Concurrent.run 1 u db [(0, none), (0, f1), (0, f2), (0, none)]).holder = none := by
  have e1 : (Concurrent.init db).step 1 u 0 none
      = ⟨db, some 0, setPhase (fun _ => .start) 0 .locked⟩ := by
    simp [Concurrent.step, Concurrent.init]
  simp only [Concurrent.run, Concurrent.steps, List.foldl_cons, List.foldl_nil, e1]
  unfold SQLiteIndex.AddURL
  rcases he : execInsertOrIgnore db u f1 with ⟨db', _ | err⟩
  · rcases hq : queryID db' u f2 with ⟨id, _ | err'⟩ <;>
      simp [Concurrent.step, setPhase, he, hq]
  · simp [Concurrent.step, setPhase, he]

/-! ## Concurrent calls: the claim -/

/-- C10. For every `N` (in particular every `N ≥ 1`) and every URL `u`, take `N`
`AddURL(u)` calls running concurrently on one `SQLiteIndex`, under any schedule and any
storage outcomes.  At every
moment at most one call stands between `Lock` and `Unlock`, so the insert-or-ignore and the
read-back of one call never interleave with a storage operation of another; all calls that
have returned without an error have returned the same ID; once a call has returned
without an error the table holds exactly one row for `u`; at most one row, for `u`, has
been added to the table, and exactly one if the table had none for `u` and a call has
returned without an error; and the calls never block each other for good: from every
state the schedule can be continued so that all `N` calls return. -/
theorem concurrent_AddURL (N : Nat) (u : String) (db₀ : DB) (hv : db₀.Valid)
    (schedule : List (Nat × Option Error)) :
    (∀ g h, ((Concurrent.run N u db₀ schedule).phases g).critical = true →
      ((Concurrent.run N u db₀ schedule).phases h).critical = true → g = h) ∧
    (∀ g h id₁ id₂, (Concurrent.run N u db₀ schedule).phases g = .done (id₁, none) →
      (Concurrent.run N u db₀ schedule).phases h = .done (id₂, none) → id₁ = id₂) ∧
    ((∃ g id, (Concurrent.run N u db₀ schedule).phases g = .done (id, none)) →
      ((Concurrent.run N u db₀ schedule).db.rows.filter (fun r => r.longURL = u)).length = 1) ∧
    ((Concurrent.run N u db₀ schedule).db.rows = db₀.rows ∨
      ∃ v, (Concurrent.run N u db₀ schedule).db.rows = db₀.rows ++ [⟨v, u⟩]) ∧
    (u ∉ db₀.rows.map Row.longURL →
      (∃ g id, (Concurrent.run N u db₀ schedule).phases g = .done (id, none)) →
      ∃ v, (Concurrent.run N u db₀ schedule).db.rows = db₀.rows ++ [⟨v, u⟩]) ∧
    (∃ more, ∀ g, g < N →
      ∃ res, (Concurrent.run N u db₀ (schedule ++ more)).phases g = .done res) := by
  have hinv : Concurrent.Inv N u db₀ (Concurrent.run N u db₀ schedule) :=
    Concurrent.steps_inv N u db₀ _ schedule (Concurrent.init_inv N u db₀ hv)
  refine ⟨?_, ?_, ?_, hinv.created, ?_, ?_⟩
  · intro g h hg hh
    have h1 := (hinv.mutex g).1 hg
    have h2 := (hinv.mutex h).1 hh
    rw [h1] at h2
    simp only [Option.some.injEq] at h2
    exact h2
  · intro g h id₁ id₂ hg hh
    obtain ⟨r₁, hr₁, hu₁, hid₁⟩ := hinv.result g id₁ (Or.inr hg)
    obtain ⟨r₂, hr₂, hu₂, hid₂⟩ := hinv.result h id₂ (Or.inr hh)
    have : r₁ = r₂ := List.inj_on_of_nodup_map hinv.valid.2.1 hr₁ hr₂ (by rw [hu₁, hu₂])
    rw [← hid₁, ← hid₂, this]
  · rintro ⟨g, id, hg⟩
    obtain ⟨r, hr, hu, _⟩ := hinv.result g id (Or.inr hg)
    exact filter_longURL_length _ _ hinv.valid.2.1 (List.mem_map.2 ⟨r, hr, hu⟩)
  · rintro hnew ⟨g, id, hg⟩
    obtain ⟨r, hr, hu, _⟩ := hinv.result g id (Or.inr hg)
    rcases hinv.created with e | e
    · rw [e] at hr
      exact absurd (List.mem_map.2 ⟨r, hr, hu⟩) hnew
    · exact e
  · -- first let the holder of the mutex, if any, return, then every goroutine in turn
    have hfree : ∃ pre, Concurrent.Inv N u db₀
          (Concurrent.steps N u (Concurrent.run N u db₀ schedule) pre) ∧
        (Concurrent.steps N u (Concurrent.run N u db₀ schedule) pre).holder = none := by
      cases hh : (Concurrent.run N u db₀ schedule).holder with
      | none => exact ⟨[], hinv, hh⟩
      | some k =>
        have hk : k < N := by
          by_contra hlt
          have hs := hinv.bound k (by omega)
          have hc := (hinv.mutex k).2 hh
          rw [hs] at hc; cases hc
        obtain ⟨h1, hh1, _, _⟩ := Concurrent.finish_one N u db₀ _ k hinv hk (Or.inr hh)
        exact ⟨finishAll [k], h1, hh1⟩
    obtain ⟨pre, hpre, hhpre⟩ := hfree
    obtain ⟨_, _, hdone⟩ := Concurrent.finish_all N u db₀ (List.range N)
      (fun g hg => List.mem_range.1 hg) _ hpre hhpre
    refine ⟨pre ++ finishAll (List.range N), ?_⟩
    intro g hg
    have := hdone g (List.mem_range.2 hg)
    simp only [Concurrent.run, Concurrent.steps_append] at this ⊢
    exact this

set_option maxRecDepth 100000 in
/-- Witness for C10: three calls of `AddURL "https://x.com/"` on the empty table, their
statements interleaved; every call returns the ID 1 and the table holds the one row. -/
theorem concurrent_AddURL_witness :
    (Concurrent.run 3 "https://x.com/" DB.empty
      [(1, none), (0, none), (1, none), (2, none), (1, none), (0, none), (1, none), (2, none),
       (2, none), (0, none), (2, none), (0, none), (2, none), (0, none), (0, none), (0, none),
       (0, none)]).phases 0
      = .done (1, none) ∧
    (Concurrent.run 3 "https://x.com/" DB.empty
      [(1, none), (0, none), (1, none), (2, none), (1, none), (0, none), (1, none), (2, none),
       (2, none), (0, none), (2, none), (0, none), (2, none), (0, none), (0, none), (0, none),
       (0, none)]).phases 1
      = .done (1, none) ∧
    (Concurrent.run 3 "https://x.com/" DB.empty
      [(1, none), (0, none), (1, none), (2, none), (1, none), (0, none), (1, none), (2, none),
       (2, none), (0, none), (2, none), (0, none), (2, none), (0, none), (0, none), (0, none),
       (0, none)]).phases 2
      = .done (1, none) ∧
    ((Concurrent.run 3 "https://x.com/" DB.empty
      [(1, none), (0, none), (1, none), (2, none), (1, none), (0, none), (1, none), (2, none),
       (2, none), (0, none), (2, none), (0, none), (2, none), (0, none), (0, none), (0, none),
       (0, none)]).db.rows.filter
        (fun r => r.longURL = "https://x.com/")).length = 1 :=
  ⟨by decide, by decide, by decide,
   (concurrent_AddURL 3 "https://x.com/" DB.empty (by decide)
      [(1, none), (0, none), (1, none), (2, none), (1, none), (0, none), (1, none), (2, none),
       (2, none), (0, none), (2, none), (0, none), (2, none), (0, none), (0, none), (0, none),
       (0, none)]).2.2.1
      ⟨0, 1, by decide⟩⟩

end Shortlinks
